import Mathlib

/-!
Shallow embedding of the `json_to_csv` Python package (files
`json_to_csv/__init__.py` and `json_to_csv/_private.py`), together with
theorems settling the claims about its specification.

JSON values are modelled by the inductive `Json`; Python dicts are
association lists with insertion order and first-match lookup (keys of a
parsed JSON document are unique, so first-match lookup agrees with Python
dict semantics).  Python exceptions are modelled explicitly with
`Except`: a function that can raise returns `Except PyExc _`, and a
caller's `try`/`except` block becomes a `match` on that result.
-/

set_option maxHeartbeats 1000000

/-- Model of a parsed JSON value.  Numbers are modelled as integers
(no claim exercises floating point). -/
inductive Json where
  | null : Json
  | bool (b : Bool) : Json
  | num (n : Int) : Json
  | str (s : String) : Json
  | arr (elems : List Json) : Json
  | obj (members : List (String × Json)) : Json

/-- Python exceptions that the embedded code can raise, plus `fuelOut`,
which marks exhaustion of the fuel bound used to model the unbounded
`while` loop of the parser (a Python infinite loop never terminates; in
the model it runs out of every finite fuel). -/
inductive PyExc where
  | keyError : PyExc
  | typeError : PyExc
  | indexError : PyExc
  | valueError : PyExc
  | walkNull : PyExc
  | fuelOut : PyExc
deriving DecidableEq, Repr

/-- Does `needle` occur at the start of `hay`?  (Helper for Python's
substring containment test.) -/
def startsWithChars : List Char → List Char → Bool
  | [], _ => true
  | _ :: _, [] => false
  | c :: cs, h :: hs => c == h && startsWithChars cs hs

/-- Python `needle in hay` for strings: substring containment.
The empty needle is contained in every string. -/
def hasSubChars (needle : List Char) : List Char → Bool
  | [] => needle.isEmpty
  | c :: rest => startsWithChars needle (c :: rest) || hasSubChars needle rest

/-- Python `x == y` where `y` is a `str`: true only when `x` is a `str`
with equal contents (Python equality between a string and any
non-string JSON value is `False`, without raising). -/
def pyEqStr (v : Json) (s : String) : Bool :=
  match v with
  | .str t => t == s
  | _ => false

/-- Python `key in cur` where `key` is a string.  Dict: key membership.
String: substring containment.  List: membership by `==` against each
element.  For numbers, booleans and `None` the `in` operator raises
`TypeError` (argument not iterable / not a container). -/
def pyContains (cur : Json) (key : String) : Except PyExc Bool :=
  match cur with
  | .obj kvs => .ok (kvs.lookup key).isSome
  | .str s => .ok (hasSubChars key.data s.data)
  | .arr xs => .ok (xs.any (fun v => pyEqStr v key))
  | _ => .error .typeError

/-- Python `cur[key]` where `key` is a string.  Dict: lookup, raising
`KeyError` when missing.  Any other value raises `TypeError` (string and
list subscripts must be integers; `None` and numbers are not
subscriptable). -/
def pySubscript (cur : Json) (key : String) : Except PyExc Json :=
  match cur with
  | .obj kvs =>
      match kvs.lookup key with
      | some v => .ok v
      | none => .error .keyError
  | _ => .error .typeError

/-- Python `for x in v`: a list yields its elements, a string yields its
one-character substrings, a dict yields its keys; numbers, booleans and
`None` raise `TypeError`. -/
def pyIterList (v : Json) : Except PyExc (List Json) :=
  match v with
  | .arr xs => .ok xs
  | .str s => .ok (s.data.map (fun ch => .str (String.mk [ch])))
  | .obj kvs => .ok (kvs.map (fun kv => .str kv.1))
  | _ => .error .typeError

mutual

/-- Python `repr` of a JSON value, used by `str` on lists and dicts.
Quote-escaping inside strings is not modelled (no claim depends on the
string form of a compound terminal value). -/
def pyRepr : Json → String
  | .null => "None"
  | .bool b => if b then "True" else "False"
  | .num n => toString n
  | .str s => "'" ++ s ++ "'"
  | .arr xs => "[" ++ pyReprList xs ++ "]"
  | .obj kvs => "\x7b" ++ pyReprMembers kvs ++ "\x7d"

/-- Comma-separated `repr` of list elements. -/
def pyReprList : List Json → String
  | [] => ""
  | [x] => pyRepr x
  | x :: rest => pyRepr x ++ ", " ++ pyReprList rest

/-- Comma-separated `repr` of dict members. -/
def pyReprMembers : List (String × Json) → String
  | [] => ""
  | [(k, v)] => "'" ++ k ++ "': " ++ pyRepr v
  | (k, v) :: rest => "'" ++ k ++ "': " ++ pyRepr v ++ ", " ++ pyReprMembers rest

end

/-- Python `str(v)`: a string is returned as is, numbers and booleans are
stringified (`True`/`False`), `None` prints as `None`, compound values
print as their `repr`. -/
def pyStr (v : Json) : String :=
  match v with
  | .str s => s
  | .null => "None"
  | .bool b => if b then "True" else "False"
  | .num n => toString n
  | .arr xs => pyRepr (.arr xs)
  | .obj kvs => pyRepr (.obj kvs)

/-- One navigation level of `__init__.py`: the parser stores levels as
tuples `('map', (key,))` or `('list_map', (key, matchKey, matchValue))`. -/
inductive Level where
  | map (key : String) : Level
  | list_map (key matchKey matchValue : String) : Level

/-- The `Rule` object of `__init__.py`: an ordered list of levels, the
terminal key to print, and the configured null value.  The `debug` flag
only controls stderr output and is not modelled. -/
structure Rule where
  levels : List Level
  keyName : String
  nullValue : String

/-- Search loop of the `list_map` branch of `Rule.descendLevels`
(`__init__.py`): for each element, test `matchKey not in theMap` (which
can raise `TypeError` on non-container elements), then compare
`theMap[matchKey] == matchValue`, returning the first matching element.
Returns `none` when no element matches (`found is False`). -/
def findListMapMatch (matchKey matchValue : String) :
    List Json → Except PyExc (Option Json)
  | [] => .ok none
  | theMap :: rest => do
      let b ← pyContains theMap matchKey
      if b then
        let v ← pySubscript theMap matchKey
        if pyEqStr v matchValue then
          .ok (some theMap)
        else
          findListMapMatch matchKey matchValue rest
      else
        findListMapMatch matchKey matchValue rest

/-- The static method `Rule.descendLevels` of `__init__.py` (the
tuple-based variant actually used by extraction).  Returns
`.ok none` where the Python code returns `None` (walk failure), and
`.error e` where the Python code raises (e.g. `levelKey not in cur` on a
non-container raises `TypeError`).  Note that the `'map'` branch does
not check that the value reached is a dict. -/
def Rule.descendLevels (obj : Json) (levels : List Level) :
    Except PyExc (Option Json) :=
  match levels with
  | [] => .ok (some obj)
  | .map key :: rest => do
      let b ← pyContains obj key
      if b then
        let cur ← pySubscript obj key
        Rule.descendLevels cur rest
      else
        .ok none
  | .list_map key matchKey matchValue :: rest => do
      let b ← pyContains obj key
      if b then
        let lst ← pySubscript obj key
        let elems ← pyIterList lst
        match (← findListMapMatch matchKey matchValue elems) with
        | some theMap => Rule.descendLevels theMap rest
        | none => .ok none
      else
        .ok none

/-- Body of `Rule.__call__` (`__init__.py`) without the enclosing
`try`/`except`: descend the levels, then look up `keyName` in the
landing object, mapping a failed walk, a missing key, or a JSON-null
value to the configured null value. -/
def Rule.callBody (r : Rule) (obj : Json) : Except PyExc String := do
  match (← Rule.descendLevels obj r.levels) with
  | none => .ok r.nullValue
  | some cur =>
      let b ← pyContains cur r.keyName
      if b then
        let v ← pySubscript cur r.keyName
        match v with
        | .null => .ok r.nullValue
        | _ => .ok (pyStr v)
      else
        .ok r.nullValue

/-- `Rule.__call__` (`__init__.py`): the whole body runs inside
`try`/`except Exception`, so every raised exception is swallowed and
converted to the null value; the call itself never raises. -/
def Rule.call (r : Rule) (obj : Json) : String :=
  match Rule.callBody r obj with
  | .ok s => s
  | .error _ => r.nullValue

/-- The `LineItem` object of `__init__.py`: the key to iterate, the
levels walked from the enclosing context to that key, and the pre/post
rule lists. -/
structure LineItem where
  lineItemKey : String
  preLineItemLevels : List Level
  preRules : List Rule
  postRules : List Rule

/-- A compiled program, i.e. the attributes the parser sets on a
`JsonToCsv` object: `preLineItemRules`, the `lineItems` deque
(outermost first), and `postLineItemRules`. -/
structure Program where
  preLineItemRules : List Rule
  lineItems : List LineItem
  postLineItemRules : List Rule

/-- Result state of one `_followLineItems` call: the produced lines
together with the final contents of the two mutable objects shared with
the caller, `existingFields` (grown in place by `existingFields +=
preFields`) and the `remainingLineItems` deque (consumed in place by
`popleft`). -/
abbrev FollowResult := List (List String) × List String × List LineItem

/-- The `for item in nextObj[lineItemKey]` loop of the non-innermost
branch of `_followLineItems`; `f` is the recursive call at the next
depth.  The deque `remaining` and the list `existingFields` are
threaded through the iterations because the Python code mutates the
shared objects: `existingFields += preFields` before each descent, and
deeper calls may pop further line items off the deque. -/
def followLoop
    (f : Json → LineItem → List LineItem → List String →
      Except PyExc FollowResult)
    (items : List Json) (nextLineItem : LineItem)
    (preRules postRules : List Rule) (remaining : List LineItem)
    (existingFields : List String) (acc : List (List String)) :
    Except PyExc FollowResult :=
  match items with
  | [] => .ok (acc, existingFields, remaining)
  | item :: rest => do
      let ef1 :=
        if !preRules.isEmpty then
          existingFields ++ preRules.map (fun r => Rule.call r item)
        else existingFields
      let (newLines, ef2, rem2) ← f item nextLineItem remaining ef1
      let newLines :=
        if !postRules.isEmpty then
          let postFields := postRules.map (fun r => Rule.call r item)
          newLines.map (fun line => line ++ postFields)
        else newLines
      followLoop f rest nextLineItem preRules postRules rem2 ef2
        (acc ++ newLines)

/-- The recursive `JsonToCsv._followLineItems` of `__init__.py`.
`fuel` bounds the recursion depth; `extractData` passes the length of
the line-item chain, which always suffices because each recursive call
first pops one element off the shared `remainingLineItems` deque.
The walk result `None` is not checked: `nextObj[lineItemKey]` on `None`
raises `TypeError`, and a missing key raises `KeyError`; neither is
caught anywhere in extraction. -/
def followLineItems : Nat → Json → LineItem → List LineItem →
    List String → Except PyExc FollowResult
  | fuel, obj, lineItem, remaining, existingFields => do
    let nextObjOpt ←
      if !lineItem.preLineItemLevels.isEmpty then
        Rule.descendLevels obj lineItem.preLineItemLevels
      else
        .ok (some obj)
    match remaining with
    | [] =>
        -- innermost line item: one line per element, existingFields copied
        let arr ←
          match nextObjOpt with
          | none => .error .typeError
          | some nextObj => pySubscript nextObj lineItem.lineItemKey
        let items ← pyIterList arr
        let rules := lineItem.preRules ++ lineItem.postRules
        let lines := items.map
          (fun item => existingFields ++ rules.map (fun r => Rule.call r item))
        .ok (lines, existingFields, [])
    | nextLineItem :: rest =>
        let arr ←
          match nextObjOpt with
          | none => .error .typeError
          | some nextObj => pySubscript nextObj lineItem.lineItemKey
        let items ← pyIterList arr
        match fuel with
        | 0 => .error .fuelOut
        | fuel' + 1 =>
            -- `remainingLineItems.popleft()` has already removed nextLineItem
            followLoop (fun o li rem ef => followLineItems fuel' o li rem ef)
              items nextLineItem lineItem.preRules
              lineItem.postRules rest existingFields []

/-- `JsonToCsv.extractData` of `__init__.py` (taking already-parsed
JSON): evaluate `preLineItemRules` at the root, pop the first line item
and recurse, then append the `postLineItemRules` values to every line.
An empty line-item chain is unreachable (the parser rejects it); the
`popleft` on the empty deque would raise `IndexError`. -/
def JsonToCsv.extractData (p : Program) (obj : Json) :
    Except PyExc (List (List String)) := do
  match p.lineItems with
  | [] => .error .indexError
  | firstLineItem :: lineItems =>
      let existingFields := p.preLineItemRules.map (fun r => Rule.call r obj)
      let (lines, _, _) ←
        followLineItems p.lineItems.length obj firstLineItem lineItems
          existingFields
      if !p.postLineItemRules.isEmpty then
        let postFields := p.postLineItemRules.map (fun r => Rule.call r obj)
        .ok (lines.map (fun line => line ++ postFields))
      else
        .ok lines

/-- `JsonToCsv.dataToStr`: joins each line with the separator and the
lines with a newline.  No quoting or escaping of any kind is performed
(the module docstring records this as a TODO).  The list-of-lists
validation evaluates `csvData[0]`, which raises `IndexError` on an
empty list; with a list argument the `isinstance` checks cannot raise
the documented `ValueError`. -/
def JsonToCsv.dataToStr (csvData : List (List String)) (separator : String) :
    Except PyExc String :=
  match csvData with
  | [] => .error .indexError
  | _ =>
      .ok (String.intercalate "\n"
        (csvData.map (fun items => String.intercalate separator items)))

/-- Python `data[i]` on a row; a negative `joinFieldNum` is not
modelled (the claims only exercise non-negative column indices). -/
def rowGet (data : List String) (i : Nat) : Except PyExc String :=
  match data.get? i with
  | some v => .ok v
  | none => .error .indexError

/-- First loop of `JsonToCsv.joinCsv`: build `csvData1Map` from the
join-field value to the row, raising `KeyError` on a duplicate value. -/
def joinBuildMap (csvData : List (List String)) (joinFieldNum : Nat)
    (acc : List (String × List String)) :
    Except PyExc (List (String × List String)) :=
  match csvData with
  | [] => .ok acc
  | data :: rest => do
      let joinFieldData ← rowGet data joinFieldNum
      if (acc.lookup joinFieldData).isSome then
        .error .keyError
      else
        joinBuildMap rest joinFieldNum (acc ++ [(joinFieldData, data)])

/-- Second loop of `JsonToCsv.joinCsv`: scan `csvData2`, raising
`KeyError` on a duplicate join value within it, and merge matching rows
(the matched left row followed by the right row with its join column
sliced out).  Returns the collected keys, the combined rows and the
rows only in data set 2. -/
def joinScanData2 (csvData1Map : List (String × List String))
    (joinFieldNum2 : Nat) :
    List (List String) → List String → List (List String) →
      List (List String) →
      Except PyExc (List String × List (List String) × List (List String))
  | [], keys, combined, only2 => .ok (keys, combined, only2)
  | data :: rest, keys, combined, only2 => do
      let joinFieldData ← rowGet data joinFieldNum2
      if keys.contains joinFieldData then
        .error .keyError
      else
        let keys := keys ++ [joinFieldData]
        match csvData1Map.lookup joinFieldData with
        | some row1 =>
            let newData :=
              data.take joinFieldNum2 ++ data.drop (joinFieldNum2 + 1)
            joinScanData2 csvData1Map joinFieldNum2 rest keys
              (combined ++ [row1 ++ newData]) only2
        | none =>
            joinScanData2 csvData1Map joinFieldNum2 rest keys combined
              (only2 ++ [data])

/-- Rows of data set 1 whose key never matched.  The Python code
iterates `set(csvData1Map.keys()).difference(csvData2Keys)`, whose
order is unspecified; the model iterates in the map's insertion order,
one admissible order. -/
def joinOnlyData1 (csvData1Map : List (String × List String))
    (csvData2Keys : List String) : List (List String) :=
  (csvData1Map.filter (fun kv => !csvData2Keys.contains kv.1)).map
    (fun kv => kv.2)

/-- `JsonToCsv.joinCsv`: strict 1:1 equi-join.  The two list-of-lists
validations evaluate `csvData1[0]` / `csvData2[0]` before anything
else, raising `IndexError` on an empty argument. -/
def JsonToCsv.joinCsv (csvData1 : List (List String)) (joinFieldNum1 : Nat)
    (csvData2 : List (List String)) (joinFieldNum2 : Nat) :
    Except PyExc
      (List (List String) × List (List String) × List (List String)) :=
  match csvData1, csvData2 with
  | [], _ => .error .indexError
  | _, [] => .error .indexError
  | _ :: _, _ :: _ => do
      let csvData1Map ← joinBuildMap csvData1 joinFieldNum1 []
      let (csvData2Keys, combinedData, onlyData2) ←
        joinScanData2 csvData1Map joinFieldNum2 csvData2 [] [] []
      .ok (combinedData, joinOnlyData1 csvData1Map csvData2Keys, onlyData2)

/-- `defaultdict(list)` update `m[k].append(row)`: extends the group of
`k`, creating it at the end of the insertion order when absent. -/
def addGroup (m : List (String × List (List String))) (k : String)
    (row : List String) : List (String × List (List String)) :=
  match m with
  | [] => [(k, [row])]
  | (k', g) :: rest =>
      if k' == k then (k', g ++ [row]) :: rest
      else (k', g) :: addGroup rest k row

/-- First loop of `JsonToCsv.multiJoinCsv`: group the rows of a data
set by join-field value (duplicates allowed). -/
def multiBuildMap (csvData : List (List String)) (joinFieldNum : Nat)
    (acc : List (String × List (List String))) :
    Except PyExc (List (String × List (List String))) :=
  match csvData with
  | [] => .ok acc
  | data :: rest => do
      let joinFieldData ← rowGet data joinFieldNum
      multiBuildMap rest joinFieldNum (addGroup acc joinFieldData data)

/-- Second loop of `JsonToCsv.multiJoinCsv`: group `csvData2` by join
value and collect the rows whose value has no group on the left. -/
def multiScanData2 (csvData1Map : List (String × List (List String)))
    (joinFieldNum2 : Nat) :
    List (List String) → List (String × List (List String)) →
      List (List String) →
      Except PyExc
        (List (String × List (List String)) × List (List String))
  | [], acc, only2 => .ok (acc, only2)
  | data :: rest, acc, only2 => do
      let joinFieldData ← rowGet data joinFieldNum2
      let acc := addGroup acc joinFieldData data
      if (csvData1Map.lookup joinFieldData).isNone then
        multiScanData2 csvData1Map joinFieldNum2 rest acc (only2 ++ [data])
      else
        multiScanData2 csvData1Map joinFieldNum2 rest acc only2

/-- The cross-product loop of `JsonToCsv.multiJoinCsv`: for each common
key (`set` intersection, modelled in the left map's insertion order),
every left row of the group is combined with every right row of the
group, the right row's join column removed. -/
def multiCombine (csvData2Map : List (String × List (List String)))
    (joinFieldNum2 : Nat) :
    List (String × List (List String)) → List (List String)
  | [] => []
  | (k, rows1) :: rest =>
      match csvData2Map.lookup k with
      | some rows2 =>
          rows1.flatMap (fun row1 =>
            rows2.map (fun row2 =>
              row1 ++ (row2.take joinFieldNum2 ++
                row2.drop (joinFieldNum2 + 1)))) ++
            multiCombine csvData2Map joinFieldNum2 rest
      | none => multiCombine csvData2Map joinFieldNum2 rest

/-- Left groups whose key has no right group (`set` difference,
modelled in the left map's insertion order). -/
def multiOnlyData1 (csvData1Map csvData2Map :
    List (String × List (List String))) : List (List String) :=
  (csvData1Map.filter (fun kv => (csvData2Map.lookup kv.1).isNone)).flatMap
    (fun kv => kv.2)

/-- `JsonToCsv.multiJoinCsv`: duplicate-tolerant join emitting the full
cross product of matching groups. -/
def JsonToCsv.multiJoinCsv (csvData1 : List (List String))
    (joinFieldNum1 : Nat) (csvData2 : List (List String))
    (joinFieldNum2 : Nat) :
    Except PyExc
      (List (List String) × List (List String) × List (List String)) :=
  match csvData1, csvData2 with
  | [], _ => .error .indexError
  | _, [] => .error .indexError
  | _ :: _, _ :: _ => do
      let csvData1Map ← multiBuildMap csvData1 joinFieldNum1 []
      let (csvData2Map, onlyData2) ←
        multiScanData2 csvData1Map joinFieldNum2 csvData2 [] []
      let combinedData := multiCombine csvData2Map joinFieldNum2 csvData1Map
      .ok (combinedData, multiOnlyData1 csvData1Map csvData2Map, onlyData2)

namespace Priv

/-- The `Level` hierarchy of `_private.py` as a closed variant:
`Level_Map(levelKey)` and `Level_ListMap(levelKey, matchKey,
matchValue)`. -/
inductive Level where
  | Level_Map (levelKey : String) : Level
  | Level_ListMap (levelKey matchKey matchValue : String) : Level

/-- `Level_Map.walk` of `_private.py`: raises `WalkNullException`
(modelled `.walkNull`) when the key is absent or the value under the
key is not a dict; otherwise returns that value.  The membership test
itself can raise `TypeError` when the current value is not a container. -/
def Level_Map.walk (levelKey : String) (curLevel : Json) :
    Except PyExc Json := do
  let b ← pyContains curLevel levelKey
  if b then
    let ret ← pySubscript curLevel levelKey
    match ret with
    | .obj _ => .ok ret
    | _ => .error .walkNull
  else
    .error .walkNull

/-- The search loop of `Level_ListMap.walk`: each element must be a
dict (else `WalkNullException`); the first element whose `matchKey`
equals `matchValue` is returned; reaching the end of the list raises
`WalkNullException`. -/
def Level_ListMap.findMatch (matchKey matchValue : String) :
    List Json → Except PyExc Json
  | [] => .error .walkNull
  | theMap :: rest =>
      match theMap with
      | .obj kvs =>
          match kvs.lookup matchKey with
          | none => Level_ListMap.findMatch matchKey matchValue rest
          | some v =>
              if pyEqStr v matchValue then .ok theMap
              else Level_ListMap.findMatch matchKey matchValue rest
      | _ => .error .walkNull

/-- `Level_ListMap.walk` of `_private.py`: `WalkNullException` when the
key is absent, its value is not a list, or no element matches. -/
def Level_ListMap.walk (levelKey matchKey matchValue : String)
    (curLevel : Json) : Except PyExc Json := do
  let b ← pyContains curLevel levelKey
  if b then
    let v ← pySubscript curLevel levelKey
    match v with
    | .arr elems => Level_ListMap.findMatch matchKey matchValue elems
    | _ => .error .walkNull
  else
    .error .walkNull

/-- Dynamic dispatch of `levelObj.walk(curLevel)`. -/
def Level.walk : Level → Json → Except PyExc Json
  | .Level_Map k, cur => Level_Map.walk k cur
  | .Level_ListMap k mk mv, cur => Level_ListMap.walk k mk mv cur

/-- The `Rule` object of `_private.py`. -/
structure Rule where
  levels : List Level
  keyName : String
  nullValue : String

/-- `Rule.descendLevels` of `_private.py`: walks each level, catching
only `WalkNullException` (returning `None`); any other exception
propagates to the caller. -/
def Rule.descendLevels (obj : Json) (levels : List Level) :
    Except PyExc (Option Json) :=
  match levels with
  | [] => .ok (some obj)
  | levelObj :: rest =>
      match Level.walk levelObj obj with
      | .error .walkNull => .ok none
      | .error e => .error e
      | .ok nextLevel => Rule.descendLevels nextLevel rest

/-- Body of `Rule.__call__` (`_private.py`) without the enclosing
`try`/`except`. -/
def Rule.callBody (r : Rule) (obj : Json) : Except PyExc String := do
  match (← Rule.descendLevels obj r.levels) with
  | none => .ok r.nullValue
  | some cur =>
      let b ← pyContains cur r.keyName
      if b then
        let v ← pySubscript cur r.keyName
        match v with
        | .null => .ok r.nullValue
        | _ => .ok (pyStr v)
      else
        .ok r.nullValue

/-- `Rule.__call__` (`_private.py`): every exception raised inside the
body is swallowed and converted to the null value. -/
def Rule.call (r : Rule) (obj : Json) : String :=
  match Rule.callBody r obj with
  | .ok s => s
  | .error _ => r.nullValue

end Priv

/-- Lookup of `key` in a JSON value viewed as an object: `some v` when
the value is an object containing `key`, `none` otherwise (used to
state claims about map-descent levels). -/
def jsonObjGet (cur : Json) (key : String) : Option Json :=
  match cur with
  | .obj kvs => kvs.lookup key
  | _ => none

/-- Is the value a JSON object? -/
def Json.isObj : Json → Bool
  | .obj _ => true
  | _ => false

/-- Parse-time errors: each constructor corresponds to one `raise`
site of `__parsePattern` / `_getNextQuotedKey`; `indexError` marks the
uncaught `IndexError` of subscripting an empty string; `fuelOut` marks
exhaustion of the fuel bound on the `while` loop (the loop itself has
no bound in the source; a state that never shrinks loops forever). -/
inductive PErr where
  | missingQuote : PErr
  | noEndQuote : PErr
  | unexpectedEndMap : PErr
  | expectedBracketMap : PErr
  | unexpectedEndListMap : PErr
  | expectedBracketListMap : PErr
  | expectedEquals : PErr
  | unknownListMap : PErr
  | lineItemAfterClose : PErr
  | expectedBracketLineItem : PErr
  | unbalancedClose : PErr
  | noLineItems : PErr
  | openLevelsAtEnd : PErr
  | openItemsAtEnd : PErr
  | indexError : PErr
  | fuelOut : PErr
deriving DecidableEq, Repr

/-- `_getNextQuotedKey`: matches the regular expression
`^"([^"][^"]*)"` at the start of the string and returns the key plus
the remainder.  An empty input raises `IndexError` (the `formatStr[0]`
test); a missing opening quote or an unmatchable pattern raises
`ParseError`. -/
def getNextQuotedKey : List Char → Except PErr (String × List Char)
  | [] => .error .indexError
  | c :: rest =>
      if c ≠ '"' then .error .missingQuote
      else
        match rest with
        | [] => .error .noEndQuote
        | c2 :: rest2 =>
            if c2 == '"' then .error .noEndQuote
            else
              let keyChars := c2 :: rest2.takeWhile (fun ch => ch ≠ '"')
              match rest2.dropWhile (fun ch => ch ≠ '"') with
              | [] => .error .noEndQuote
              | _ :: after => .ok (String.mk keyChars, after)

/-- Membership in `WHITESPACE_CHARS = (' ', ',', '\n', '\r', '\t')`. -/
def isFormatWhitespace (c : Char) : Bool :=
  c == ' ' || c == ',' || c == '\n' || c == '\r' || c == '\t'

/-- Python `str.strip()` whitespace set. -/
def isPyWhitespace (c : Char) : Bool :=
  c == ' ' || c == '\t' || c == '\n' || c == '\r' ||
    c == '\x0b' || c == '\x0c'

/-- Python `formatStr.strip()`. -/
def pyStrip (s : List Char) : List Char :=
  ((s.dropWhile isPyWhitespace).reverse.dropWhile isPyWhitespace).reverse

/-- One pass of `re.sub('[c][ ]+', c, formatStr)`: delete every run of
spaces that follows the character `stripChar`.  `afterOper` records
whether the previous kept character was `stripChar` (or a deleted space
of its run), i.e. whether a leading space should be deleted. -/
def stripAfterCharAux (stripChar : Char) (afterOper : Bool) :
    List Char → List Char
  | [] => []
  | c :: rest =>
      if afterOper && c == ' ' then
        stripAfterCharAux stripChar true rest
      else if c == stripChar then
        c :: stripAfterCharAux stripChar true rest
      else
        c :: stripAfterCharAux stripChar false rest

/-- `re.sub('[c][ ]+', c, formatStr)` for one operator character. -/
def stripAfterChar (stripChar : Char) (l : List Char) : List Char :=
  stripAfterCharAux stripChar false l

/-- The whitespace cleanup at the top of `__parsePattern`: `strip()`
followed by one `re.sub` per character of
`OPER_CHARS = (',', '.', '[', ']', '/', '+')`, in that order. -/
def cleanupFormatStr (s : List Char) : List Char :=
  [',', '.', '[', ']', '/', '+'].foldl
    (fun acc c => stripAfterChar c acc) (pyStrip s)

/-- Where rules appended by the parser currently go: the local `rules`
list of `__parsePattern` aliases `self.preLineItemRules` (before any
line item), some line item's `preRules` or `postRules`, or
`self.postLineItemRules` (after the outermost line item closed). -/
inductive RTarget where
  | root : RTarget
  | pre (i : Nat) : RTarget
  | post (i : Nat) : RTarget
  | tail : RTarget

/-- Parser state: the unconsumed format string and the local variables
of the `__parsePattern` loop.  `openLineItems` stores, for each open
line item, its index in `lineItems` and the saved copy of
`preLineItemLevels` that is restored into `currentLevels` when the
line item closes. -/
structure PState where
  formatStr : List Char
  currentLevels : List Level
  lineItems : List LineItem
  openLineItems : List (Nat × List Level)
  preLineItemRules : List Rule
  postLineItemRules : List Rule
  target : RTarget
  closedALineItem : Bool
  nullValue : String

/-- Replace the `i`-th line item by `f` of it (used to model appending
to a rule list through the shared reference held by the parser). -/
def modifyLineItem : List LineItem → Nat → (LineItem → LineItem) →
    List LineItem
  | [], _, _ => []
  | li :: rest, 0, f => f li :: rest
  | li :: rest, Nat.succ i, f => li :: modifyLineItem rest i f

/-- Append a printed-key rule to whichever rule list is currently
active (`rules.append(rule)` through the alias). -/
def appendRule (st : PState) (r : Rule) : PState :=
  match st.target with
  | .root => { st with preLineItemRules := st.preLineItemRules ++ [r] }
  | .pre i =>
      { st with lineItems := (modifyLineItem st.lineItems i
          (fun li => { li with preRules := li.preRules ++ [r] })) }
  | .post i =>
      { st with lineItems := (modifyLineItem st.lineItems i
          (fun li => { li with postRules := li.postRules ++ [r] })) }
  | .tail => { st with postLineItemRules := st.postLineItemRules ++ [r] }

/-- Strip one optional comma after a closed bracket or printed key
(`if formatStr and formatStr[0] == ','`). -/
def stripOptionalComma : List Char → List Char
  | [] => []
  | c :: rest => if c == ',' then rest else c :: rest

/-- The validation block after the `__parsePattern` loop: no line item
at all, a still-open level, or a still-open line item each raise a
`ParseError`. -/
def parseFinalize (st : PState) : Except PErr Program :=
  if st.lineItems.isEmpty then
    .error .noLineItems
  else if !st.currentLevels.isEmpty then
    .error .openLevelsAtEnd
  else if !st.openLineItems.isEmpty then
    .error .openItemsAtEnd
  else
    .ok ⟨st.preLineItemRules, st.lineItems, st.postLineItemRules⟩

/-- The `while formatStr:` loop of `__parsePattern`, bounded by fuel.
Each iteration dispatches on the first character exactly as the source
does: `.`, `/`, `+`, `]`, `"`, whitespace, and the fall-through branch,
which only writes `Unhandled character` to stderr and leaves
`formatStr` unchanged — so the loop never terminates from such a state
and exhausts any fuel. -/
def parseLoop : Nat → PState → Except PErr Program
  | fuel, st =>
    match st.formatStr with
    | [] => parseFinalize st
    | c :: rest =>
      match fuel with
      | 0 => .error .fuelOut
      | fuel + 1 =>
        if c == '.' then
          match getNextQuotedKey rest with
          | .error e => .error e
          | .ok (itemName, fs1) =>
            let levels := st.currentLevels ++ [Level.map itemName]
            match fs1 with
            | [] => .error .unexpectedEndMap
            | b :: fs2 =>
                if b == '[' then
                  parseLoop fuel
                    { st with formatStr := fs2, currentLevels := levels }
                else .error .expectedBracketMap
        else if c == '/' then
          match getNextQuotedKey rest with
          | .error e => .error e
          | .ok (itemName, fs1) =>
            match fs1 with
            | [] => .error .unexpectedEndListMap
            | b :: fs2 =>
              if b == '[' then
                -- the try/except around the comparison converts the
                -- IndexError of an empty rest to a ParseError
                match getNextQuotedKey fs2 with
                | .error .indexError => .error .unknownListMap
                | .error e => .error e
                | .ok (matchKey, fs3) =>
                  match fs3 with
                  | [] => .error .expectedEquals
                  | e1 :: fs4 =>
                    if e1 == '=' then
                      match getNextQuotedKey fs4 with
                      | .error .indexError => .error .unknownListMap
                      | .error e => .error e
                      | .ok (matchValue, fs5) =>
                        let levels := st.currentLevels ++
                          [Level.list_map itemName matchKey matchValue]
                        parseLoop fuel
                          { st with formatStr := fs5, currentLevels := levels }
                    else .error .expectedEquals
              else .error .expectedBracketListMap
        else if c == '+' then
          match getNextQuotedKey rest with
          | .error e => .error e
          | .ok (itemName, fs1) =>
            if st.closedALineItem then .error .lineItemAfterClose
            else
              let preLineItemLevels := st.currentLevels
              let idx := st.lineItems.length
              let lineItem : LineItem := ⟨itemName, preLineItemLevels, [], []⟩
              match fs1 with
              | [] => .error .indexError
              | b :: fs2 =>
                if b == '[' then
                  parseLoop fuel
                    { st with
                      formatStr := fs2,
                      currentLevels := [],
                      lineItems := st.lineItems ++ [lineItem],
                      openLineItems :=
                        st.openLineItems ++ [(idx, preLineItemLevels)],
                      target := .pre idx }
                else .error .expectedBracketLineItem
        else if c == ']' then
          if !st.openLineItems.isEmpty then
            if st.currentLevels.isEmpty then
              let closing := st.openLineItems.getLastD (0, [])
              let openRest := st.openLineItems.dropLast
              let newTarget :=
                match openRest.getLast? with
                | some parent => RTarget.post parent.1
                | none => RTarget.tail
              parseLoop fuel
                { st with
                  formatStr := stripOptionalComma rest,
                  currentLevels := closing.2,
                  openLineItems := openRest,
                  target := newTarget,
                  closedALineItem := true }
            else
              parseLoop fuel
                { st with
                  formatStr := stripOptionalComma rest,
                  currentLevels := st.currentLevels.dropLast }
          else if !st.currentLevels.isEmpty then
            parseLoop fuel
              { st with
                formatStr := stripOptionalComma rest,
                currentLevels := st.currentLevels.dropLast }
          else .error .unbalancedClose
        else if c == '"' then
          match getNextQuotedKey (c :: rest) with
          | .error e => .error e
          | .ok (itemName, fs1) =>
            let rule : Rule := ⟨st.currentLevels, itemName, st.nullValue⟩
            parseLoop fuel
              { appendRule st rule with formatStr := stripOptionalComma fs1 }
        else if isFormatWhitespace c then
          parseLoop fuel
            { st with formatStr := (c :: rest).dropWhile isFormatWhitespace }
        else
          -- `sys.stderr.write('Unhandled character: ...')` and nothing else
          parseLoop fuel st

/-- `JsonToCsv.__parsePattern` (and thus `JsonToCsv.__init__`):
whitespace cleanup, then the scanning loop, then validation. -/
def parsePattern (nullValue : String) (fuel : Nat) (formatStr : String) :
    Except PErr Program :=
  parseLoop fuel
    ⟨cleanupFormatStr formatStr.data, [], [], [], [], [], .root, false,
      nullValue⟩

/-- Join-field value of a row (the claims only exercise in-range
indices, where `getD` agrees with Python's `data[i]`). -/
def joinValue (j : Nat) (row : List String) : String := row.getD j ""

/-- A row with its join column removed: `data[:j] + data[j+1:]`. -/
def dropColumn (j : Nat) (row : List String) : List String :=
  row.take j ++ row.drop (j + 1)

/-- Specification shape of the equi-join's combined rows: for each
right row (in order) that has a matching left row, the matching left
row followed by the right row minus its join column. -/
def combinedRowsSpec (d1 : List (List String)) (j1 : Nat)
    (d2 : List (List String)) (j2 : Nat) : List (List String) :=
  d2.filterMap (fun r2 =>
    (d1.find? (fun r1 => joinValue j1 r1 == joinValue j2 r2)).map
      (fun r1 => r1 ++ dropColumn j2 r2))

/-- Distinct values of a list in first-occurrence order. -/
def firstOccsAux (seen : List String) : List String → List String
  | [] => []
  | x :: xs =>
      if seen.contains x then firstOccsAux seen xs
      else x :: firstOccsAux (seen ++ [x]) xs

/-- Distinct values of a list in first-occurrence order. -/
def firstOccs (l : List String) : List String := firstOccsAux [] l

/-- All rows of a data set whose join-field value is `k`, in order. -/
def groupRows (d : List (List String)) (j : Nat) (k : String) :
    List (List String) :=
  d.filter (fun r => joinValue j r == k)

/-- Specification shape of the multi-join's combined rows: for each
join key common to both sides (keyed in the left data's first-occurrence
order), the cross product of the key's left rows and right rows in
left-major order, the right row's join column removed. -/
def multiCombinedSpec (d1 : List (List String)) (j1 : Nat)
    (d2 : List (List String)) (j2 : Nat) : List (List String) :=
  ((firstOccs (d1.map (joinValue j1))).filter
      (fun k => (d2.map (joinValue j2)).contains k)).flatMap
    (fun k => (groupRows d1 j1 k).flatMap
      (fun r1 => (groupRows d2 j2 k).map
        (fun r2 => r1 ++ dropColumn j2 r2)))

/-- Concrete compiled program for the format string
`+"A"["x", +"B"["y"] ]`: an outer line item on `A` with pre-rule `x`,
and a nested line item on `B` with pre-rule `y` (checked against the
embedded parser below). -/
def leakProgram : Program :=
  ⟨[], [⟨"A", [], [⟨[], "x", ""⟩], []⟩, ⟨"B", [], [⟨[], "y", ""⟩], []⟩], []⟩

/-- Concrete document whose outer line-item array has two elements:
`e1 = (x = 1, B = [(y = a1)])` and `e2 = (x = 2, B = [(y = b1)])`. -/
def leakDocument : Json :=
  .obj [("A", .arr [
    .obj [("x", .str "1"), ("B", .arr [.obj [("y", .str "a1")]])],
    .obj [("x", .str "2"), ("B", .arr [.obj [("y", .str "b1")]])]])]

/-- Three-element line-item array used to instantiate the row-count
theorem at a concrete input. -/
def w4Items : List Json :=
  [.obj [("name", .str "n1")], .obj [("name", .str "n2")],
    .obj [("name", .str "n3")]]

/-- Concrete document holding `w4Items` under the iteration key. -/
def w4Document : Json := .obj [("items", .arr w4Items)]

/-- Concrete single line item on key `items` printing `name`. -/
def w4LineItem : LineItem := ⟨"items", [], [⟨[], "name", ""⟩], []⟩

/-- Concrete single-line-item program. -/
def w4Program : Program := ⟨[], [w4LineItem], []⟩

/-- Claim C1: for a two-deep line-item chain whose outer line item has
a pre-rule, each emitted row of element `e_i` starts with exactly
`baseFields` followed by the pre-rule values of `e_i` alone.  The code
violates this: `existingFields += preFields` grows the shared list
across sibling iterations, so the second element's row is
`["1", "2", "b1"]` — carrying the first sibling's pre-rule value `"1"` —
instead of `["2", "b1"]`.  (The first conjunct checks that the embedded
parser really compiles `+"A"["x", +"B"["y"] ]` to `leakProgram`.) -/
theorem extractData_leaks_sibling_pre_rules :
    parsePattern "" 32 "+\"A\"[\"x\", +\"B\"[\"y\"] ]" = .ok leakProgram ∧
    JsonToCsv.extractData leakProgram leakDocument =
      .ok [["1", "a1"], ["1", "2", "b1"]] ∧
    [["1", "a1"], ["1", "2", "b1"]] ≠ [["1", "a1"], ["2", "b1"]] := by
  refine ⟨by rfl, by rfl, by decide⟩

/-- Claim C3, counterexample: the serializer does not implement any
quoting.  On a field containing the separator it emits the field
verbatim (`a,b`), not wrapped in double quotes, and on a field with an
embedded double quote it emits it verbatim, without RFC 4180 doubling. -/
theorem dataToStr_does_not_quote :
    JsonToCsv.dataToStr [["a,b"]] "," = .ok "a,b" ∧
    JsonToCsv.dataToStr [["a\"b"]] "," = .ok "a\"b" ∧
    "a,b" ≠ "\"a,b\"" ∧
    "a\"b" ≠ "\"a\"\"b\"" := by
  refine ⟨by rfl, by rfl, by decide, by decide⟩

/-- Claim C3, amended: `dataToStr` performs no quoting or escaping of
any kind: for every non-empty row list it returns exactly the rows
joined field-wise by the separator and line-wise by `\n`, fields
emitted verbatim (the module docstring records the missing quoting as
a TODO). -/
theorem dataToStr_joins_verbatim (csvData : List (List String))
    (separator : String) (h : csvData ≠ []) :
    JsonToCsv.dataToStr csvData separator =
      .ok (String.intercalate "\n"
        (csvData.map (fun items => String.intercalate separator items))) := by
  match csvData with
  | [] => exact absurd rfl h
  | _ :: _ => rfl

/-- Witness for `dataToStr_joins_verbatim` at a concrete input. -/
theorem dataToStr_joins_verbatim_witness :
    JsonToCsv.dataToStr [["a,b"], ["c"]] "," = .ok "a,b\nc" := by
  rw [dataToStr_joins_verbatim [["a,b"], ["c"]] "," (by decide)]
  rfl

/-- Claim C10: with an empty row list — a value `extractData` can
legitimately produce — the list-of-lists validation of `dataToStr`,
`joinCsv` and `multiJoinCsv` subscripts `csvData[0]` and raises
`IndexError`, not the documented `ValueError`. -/
theorem empty_csvData_raises_IndexError :
    (∀ separator, JsonToCsv.dataToStr [] separator = .error .indexError) ∧
    (∀ j1 d2 j2, JsonToCsv.joinCsv [] j1 d2 j2 = .error .indexError) ∧
    (∀ (r : List String) rs j1 j2,
      JsonToCsv.joinCsv (r :: rs) j1 [] j2 = .error .indexError) ∧
    (∀ j1 d2 j2, JsonToCsv.multiJoinCsv [] j1 d2 j2 = .error .indexError) ∧
    (∀ (r : List String) rs j1 j2,
      JsonToCsv.multiJoinCsv (r :: rs) j1 [] j2 = .error .indexError) ∧
    PyExc.indexError ≠ PyExc.valueError := by
  refine ⟨fun _ => rfl, fun j1 d2 j2 => by cases d2 <;> rfl,
    fun r rs j1 j2 => rfl, fun j1 d2 j2 => by cases d2 <;> rfl,
    fun r rs j1 j2 => rfl, by decide⟩

/-- Claim C4: for a program with exactly one line item, when the
pre-levels walk succeeds and the iteration key holds an array of N
elements, `extractData` returns exactly N rows, one per array element
in array order: row i is the root-rule values, then the line item's
rule values evaluated on element i, then the tail-rule values. -/
theorem extractData_single_chain (p : Program) (obj ctx : Json)
    (li : LineItem) (items : List Json)
    (hLi : p.lineItems = [li])
    (hWalk : Rule.descendLevels obj li.preLineItemLevels = .ok (some ctx))
    (hArr : pySubscript ctx li.lineItemKey = .ok (.arr items)) :
    ∃ rows, JsonToCsv.extractData p obj = .ok rows ∧
      rows = items.map (fun item =>
        p.preLineItemRules.map (fun r => Rule.call r obj) ++
        ((li.preRules ++ li.postRules).map (fun r => Rule.call r item) ++
          p.postLineItemRules.map (fun r => Rule.call r obj))) ∧
      rows.length = items.length := by
  have hfollow : followLineItems 1 obj li []
      (p.preLineItemRules.map (fun r => Rule.call r obj)) =
      .ok (items.map (fun item =>
        p.preLineItemRules.map (fun r => Rule.call r obj) ++
        (li.preRules ++ li.postRules).map (fun r => Rule.call r item)),
        p.preLineItemRules.map (fun r => Rule.call r obj), []) := by
    by_cases hpre : li.preLineItemLevels.isEmpty
    · have hlv : li.preLineItemLevels = [] := by
        cases h : li.preLineItemLevels with
        | nil => rfl
        | cons a l => rw [h] at hpre; simp [List.isEmpty] at hpre
      rw [hlv] at hWalk
      have hctx : ctx = obj := by
        simpa [Rule.descendLevels] using hWalk.symm
      subst hctx
      simp [followLineItems, hlv, hArr, Except.instMonad, Except.bind,
        pyIterList]
    · simp [followLineItems, hpre, hWalk, hArr, Except.instMonad, Except.bind,
        pyIterList]
  refine ⟨_, ?_, rfl, by simp⟩
  by_cases hpost : p.postLineItemRules.isEmpty
  · have hp : p.postLineItemRules = [] := by
      cases h : p.postLineItemRules with
      | nil => rfl
      | cons a l => rw [h] at hpost; simp [List.isEmpty] at hpost
    simp [JsonToCsv.extractData, hLi, hfollow, hp, Except.instMonad,
      Except.bind]
  · simp [JsonToCsv.extractData, hLi, hfollow, hpost, Except.instMonad,
      Except.bind, List.map_map, Function.comp]

/-- Witness for `extractData_single_chain` at a concrete three-element
document. -/
theorem extractData_single_chain_witness :
    ∃ rows, JsonToCsv.extractData w4Program w4Document = .ok rows ∧
      rows.length = 3 := by
  obtain ⟨rows, h1, _, h3⟩ :=
    extractData_single_chain w4Program w4Document w4Document w4LineItem
      w4Items rfl rfl rfl
  exact ⟨rows, h1, by rw [h3]; rfl⟩

/-- Claim C5: a map-descent level's walk fails — producing the null
outcome for the enclosing Rule — if and only if the key is absent from
the current object or the value stored under the key is not an object;
otherwise it yields that value.  (`jsonObjGet` is `some v` exactly when
the current value is an object containing the key.) -/
theorem Level_Map_walk_spec (levelKey : String) (curLevel : Json) :
    ((∃ e, Priv.Level_Map.walk levelKey curLevel = .error e) ↔
      ¬ ∃ v, jsonObjGet curLevel levelKey = some v ∧ v.isObj = true) ∧
    (∀ v, jsonObjGet curLevel levelKey = some v → v.isObj = true →
      Priv.Level_Map.walk levelKey curLevel = .ok v) ∧
    (∀ e keyName nullValue,
      Priv.Level_Map.walk levelKey curLevel = .error e →
      Priv.Rule.call ⟨[.Level_Map levelKey], keyName, nullValue⟩ curLevel =
        nullValue) := by
  refine ⟨?_, ?_, ?_⟩
  · cases curLevel with
    | obj kvs =>
        cases hl : kvs.lookup levelKey with
        | none =>
            simp [Priv.Level_Map.walk, jsonObjGet, hl, pyContains, pySubscript,
              Except.instMonad, Except.bind]
        | some v =>
            cases v <;>
              simp [Priv.Level_Map.walk, jsonObjGet, hl, pyContains,
                pySubscript, Except.instMonad, Except.bind, Json.isObj]
    | null =>
        simp [Priv.Level_Map.walk, jsonObjGet, pyContains, Except.instMonad,
          Except.bind]
    | bool b =>
        simp [Priv.Level_Map.walk, jsonObjGet, pyContains, Except.instMonad,
          Except.bind]
    | num n =>
        simp [Priv.Level_Map.walk, jsonObjGet, pyContains, Except.instMonad,
          Except.bind]
    | str s =>
        by_cases hb : hasSubChars levelKey.data s.data <;>
          simp [Priv.Level_Map.walk, jsonObjGet, pyContains, pySubscript,
            Except.instMonad, Except.bind, hb]
    | arr xs =>
        by_cases hb : xs.any (fun v => pyEqStr v levelKey) <;>
          simp [Priv.Level_Map.walk, jsonObjGet, pyContains, pySubscript,
            Except.instMonad, Except.bind, hb]
  · intro v hv hobj
    cases curLevel with
    | obj kvs =>
        cases v <;>
          simp_all [Priv.Level_Map.walk, jsonObjGet, pyContains, pySubscript,
            Except.instMonad, Except.bind, Json.isObj]
    | null => simp [jsonObjGet] at hv
    | bool b => simp [jsonObjGet] at hv
    | num n => simp [jsonObjGet] at hv
    | str s => simp [jsonObjGet] at hv
    | arr xs => simp [jsonObjGet] at hv
  · intro e keyName nullValue hw
    cases e <;>
      simp [Priv.Rule.call, Priv.Rule.callBody, Priv.Rule.descendLevels,
        Priv.Level.walk, hw, Except.instMonad, Except.bind]

/-- Witness for `Level_Map_walk_spec`: on an object whose key holds an
object, the walk yields exactly that object, and on a failing walk the
enclosing rule yields the null value. -/
theorem Level_Map_walk_spec_witness :
    Priv.Level_Map.walk "a" (.obj [("a", .obj [("b", .str "c")])]) =
      .ok (.obj [("b", .str "c")]) ∧
    Priv.Rule.call ⟨[.Level_Map "a"], "k", "NULL"⟩ (.num 5) = "NULL" := by
  constructor
  · exact (Level_Map_walk_spec "a" (.obj [("a", .obj [("b", .str "c")])])).2.1
      (.obj [("b", .str "c")]) rfl rfl
  · exact (Level_Map_walk_spec "a" (.num 5)).2.2 .typeError "k" "NULL" rfl

/-- Claim C6: evaluating a Rule never raises to the caller (the model
of `Rule.__call__` is a total function into strings): every failure of
the body — walk failure, absent terminal key, JSON-null terminal value,
or any exception raised inside the body — yields the configured null
value, and in all other cases the result is the string form of the
terminal value.  Stated for both the tuple-based `Rule` of
`__init__.py` (`r`) and the class-based `Rule` of `_private.py`
(`pr`). -/
theorem Rule_call_never_raises (r : Rule) (pr : Priv.Rule) (obj : Json) :
    ((∀ e, Rule.callBody r obj = .error e → Rule.call r obj = r.nullValue) ∧
      (Rule.descendLevels obj r.levels = .ok none →
        Rule.call r obj = r.nullValue) ∧
      (Rule.call r obj = r.nullValue ∨ ∃ cur v,
        Rule.descendLevels obj r.levels = .ok (some cur) ∧
        pySubscript cur r.keyName = .ok v ∧ v ≠ .null ∧
        Rule.call r obj = pyStr v)) ∧
    ((∀ e, Priv.Rule.callBody pr obj = .error e →
        Priv.Rule.call pr obj = pr.nullValue) ∧
      (Priv.Rule.descendLevels obj pr.levels = .ok none →
        Priv.Rule.call pr obj = pr.nullValue) ∧
      (Priv.Rule.call pr obj = pr.nullValue ∨ ∃ cur v,
        Priv.Rule.descendLevels obj pr.levels = .ok (some cur) ∧
        pySubscript cur pr.keyName = .ok v ∧ v ≠ .null ∧
        Priv.Rule.call pr obj = pyStr v)) := by
  constructor
  · refine ⟨fun e he => by simp [Rule.call, he], fun hd => by
      simp [Rule.call, Rule.callBody, hd, Except.instMonad, Except.bind], ?_⟩
    cases hd : Rule.descendLevels obj r.levels with
    | error e => exact Or.inl (by simp [Rule.call, Rule.callBody, hd,
        Except.instMonad, Except.bind])
    | ok o =>
      cases o with
      | none => exact Or.inl (by simp [Rule.call, Rule.callBody, hd,
          Except.instMonad, Except.bind])
      | some cur =>
        cases hc : pyContains cur r.keyName with
        | error e => exact Or.inl (by simp [Rule.call, Rule.callBody, hd, hc,
            Except.instMonad, Except.bind])
        | ok b =>
          cases b with
          | false => exact Or.inl (by simp [Rule.call, Rule.callBody, hd, hc,
              Except.instMonad, Except.bind])
          | true =>
            cases hs : pySubscript cur r.keyName with
            | error e => exact Or.inl (by simp [Rule.call, Rule.callBody, hd,
                hc, hs, Except.instMonad, Except.bind])
            | ok v =>
              cases v with
              | null => exact Or.inl (by simp [Rule.call, Rule.callBody, hd,
                  hc, hs, Except.instMonad, Except.bind])
              | bool b => exact Or.inr ⟨cur, .bool b, rfl, hs, by simp, by
                  simp [Rule.call, Rule.callBody, hd, hc, hs,
                    Except.instMonad, Except.bind]⟩
              | num n => exact Or.inr ⟨cur, .num n, rfl, hs, by simp, by
                  simp [Rule.call, Rule.callBody, hd, hc, hs,
                    Except.instMonad, Except.bind]⟩
              | str s => exact Or.inr ⟨cur, .str s, rfl, hs, by simp, by
                  simp [Rule.call, Rule.callBody, hd, hc, hs,
                    Except.instMonad, Except.bind]⟩
              | arr xs => exact Or.inr ⟨cur, .arr xs, rfl, hs, by simp, by
                  simp [Rule.call, Rule.callBody, hd, hc, hs,
                    Except.instMonad, Except.bind]⟩
              | obj kvs => exact Or.inr ⟨cur, .obj kvs, rfl, hs, by simp, by
                  simp [Rule.call, Rule.callBody, hd, hc, hs,
                    Except.instMonad, Except.bind]⟩
  · refine ⟨fun e he => by simp [Priv.Rule.call, he], fun hd => by
      simp [Priv.Rule.call, Priv.Rule.callBody, hd, Except.instMonad,
        Except.bind], ?_⟩
    cases hd : Priv.Rule.descendLevels obj pr.levels with
    | error e => exact Or.inl (by simp [Priv.Rule.call, Priv.Rule.callBody,
        hd, Except.instMonad, Except.bind])
    | ok o =>
      cases o with
      | none => exact Or.inl (by simp [Priv.Rule.call, Priv.Rule.callBody,
          hd, Except.instMonad, Except.bind])
      | some cur =>
        cases hc : pyContains cur pr.keyName with
        | error e => exact Or.inl (by simp [Priv.Rule.call,
            Priv.Rule.callBody, hd, hc, Except.instMonad, Except.bind])
        | ok b =>
          cases b with
          | false => exact Or.inl (by simp [Priv.Rule.call,
              Priv.Rule.callBody, hd, hc, Except.instMonad, Except.bind])
          | true =>
            cases hs : pySubscript cur pr.keyName with
            | error e => exact Or.inl (by simp [Priv.Rule.call,
                Priv.Rule.callBody, hd, hc, hs, Except.instMonad,
                Except.bind])
            | ok v =>
              cases v with
              | null => exact Or.inl (by simp [Priv.Rule.call,
                  Priv.Rule.callBody, hd, hc, hs, Except.instMonad,
                  Except.bind])
              | bool b => exact Or.inr ⟨cur, .bool b, rfl, hs, by simp, by
                  simp [Priv.Rule.call, Priv.Rule.callBody, hd, hc, hs,
                    Except.instMonad, Except.bind]⟩
              | num n => exact Or.inr ⟨cur, .num n, rfl, hs, by simp, by
                  simp [Priv.Rule.call, Priv.Rule.callBody, hd, hc, hs,
                    Except.instMonad, Except.bind]⟩
              | str s => exact Or.inr ⟨cur, .str s, rfl, hs, by simp, by
                  simp [Priv.Rule.call, Priv.Rule.callBody, hd, hc, hs,
                    Except.instMonad, Except.bind]⟩
              | arr xs => exact Or.inr ⟨cur, .arr xs, rfl, hs, by simp, by
                  simp [Priv.Rule.call, Priv.Rule.callBody, hd, hc, hs,
                    Except.instMonad, Except.bind]⟩
              | obj kvs => exact Or.inr ⟨cur, .obj kvs, rfl, hs, by simp, by
                  simp [Priv.Rule.call, Priv.Rule.callBody, hd, hc, hs,
                    Except.instMonad, Except.bind]⟩

/-- Witness for `Rule_call_never_raises`: a rule whose path is missing
yields the null value in both variants. -/
theorem Rule_call_never_raises_witness :
    Rule.call ⟨[.map "x"], "k", "NULL"⟩ (.obj []) = "NULL" ∧
    Priv.Rule.call ⟨[.Level_Map "x"], "k", "NULL"⟩ (.obj []) = "NULL" := by
  constructor
  · exact (Rule_call_never_raises ⟨[.map "x"], "k", "NULL"⟩
      ⟨[.Level_Map "x"], "k", "NULL"⟩ (.obj [])).1.2.1 rfl
  · exact (Rule_call_never_raises ⟨[.map "x"], "k", "NULL"⟩
      ⟨[.Level_Map "x"], "k", "NULL"⟩ (.obj [])).2.2.1 rfl

/-- Claim C7 (refuting): on a format string whose next unconsumed
character is not an operator character, a double quote, or a
whitespace/separator character — such as `#` — the parser does NOT
raise a parse error and does NOT terminate: the fall-through branch
only writes to stderr without consuming the character, so the loop
runs forever (in the fuel model it exhausts every finite fuel; in
particular it never returns a `ParseError` and never returns a
program).  The second conjunct instantiates this for the full
compilation pipeline on the comment-introducing string `#`. -/
theorem parseLoop_unhandled_char_never_terminates :
    (∀ fuel (st : PState) c rest, st.formatStr = c :: rest →
      c ∉ [',', '.', '[', ']', '/', '+'] → c ≠ '"' →
      isFormatWhitespace c = false →
      parseLoop fuel st = .error .fuelOut) ∧
    (∀ nullValue fuel, parsePattern nullValue fuel "#" = .error .fuelOut) := by
  have main : ∀ fuel (st : PState) c rest, st.formatStr = c :: rest →
      c ∉ [',', '.', '[', ']', '/', '+'] → c ≠ '"' →
      isFormatWhitespace c = false →
      parseLoop fuel st = .error .fuelOut := by
    intro fuel
    induction fuel with
    | zero =>
        intro st c rest hfs h1 h2 h3
        simp [parseLoop, hfs]
    | succ n ih =>
        intro st c rest hfs h1 h2 h3
        have hdot : (c == '.') = false := by
          simp only [beq_eq_false_iff_ne]; intro h; exact h1 (by simp [h])
        have hsl : (c == '/') = false := by
          simp only [beq_eq_false_iff_ne]; intro h; exact h1 (by simp [h])
        have hpl : (c == '+') = false := by
          simp only [beq_eq_false_iff_ne]; intro h; exact h1 (by simp [h])
        have hbr : (c == ']') = false := by
          simp only [beq_eq_false_iff_ne]; intro h; exact h1 (by simp [h])
        have hq : (c == '"') = false := by
          simp only [beq_eq_false_iff_ne]; exact h2
        rw [parseLoop, hfs]
        simp only [hdot, hsl, hpl, hbr, hq, h3, if_false, Bool.false_eq_true]
        exact ih st c rest hfs h1 h2 h3
  refine ⟨main, fun nullValue fuel => ?_⟩
  exact main fuel _ '#' [] rfl (by decide) (by decide) (by decide)

/-- Witness for `parseLoop_unhandled_char_never_terminates` at one
concrete state and fuel. -/
theorem parseLoop_unhandled_char_witness :
    parseLoop 3 ⟨['#'], [], [], [], [], [], .root, false, ""⟩ =
      .error .fuelOut :=
  parseLoop_unhandled_char_never_terminates.1 3
    ⟨['#'], [], [], [], [], [], .root, false, ""⟩ '#' [] rfl
    (by decide) (by decide) (by decide)
theorem getNextQuotedKey_sublist :
    ∀ (l : List Char) (k : String) (r : List Char),
      getNextQuotedKey l = .ok (k, r) → r.Sublist l := by
  intro l k r h
  match l with
  | [] => simp [getNextQuotedKey] at h
  | c :: rest =>
    rw [getNextQuotedKey.eq_def] at h
    by_cases hc : c = '"'
    · simp only [hc, ne_eq, not_true_eq_false, if_false] at h
      match hr : rest with
      | [] => simp at h
      | c2 :: rest2 =>
        simp only at h
        by_cases hc2 : (c2 == '"') = true
        · simp [hc2] at h
        · simp only [hc2, Bool.false_eq_true, if_false] at h
          cases hdw : rest2.dropWhile (fun ch => ch ≠ '"') with
          | nil => rw [hdw] at h; simp at h
          | cons x after =>
              rw [hdw] at h
              simp only [Except.ok.injEq, Prod.mk.injEq] at h
              obtain ⟨hk, hr⟩ := h
              subst hr
              have h1 : after.Sublist (x :: after) :=
                List.sublist_cons_self x after
              have h2 : (x :: after).Sublist rest2 := by
                have h3 := List.dropWhile_sublist (l := rest2)
                  (fun ch => decide (ch ≠ '"'))
                rw [hdw] at h3
                exact h3
              exact ((h1.trans h2).trans
                (List.sublist_cons_self c2 rest2)).trans
                (List.sublist_cons_self c (c2 :: rest2))
    · simp only [if_pos (by simpa using hc)] at h
      exact absurd h (by simp)

/-- Helper: space-stripping only removes characters. -/
theorem stripAfterCharAux_subset (a : Char) :
    ∀ (b : Bool) (l : List Char) (x : Char),
      x ∈ stripAfterCharAux a b l → x ∈ l := by
  intro b l
  induction l generalizing b with
  | nil => intro x hx; simp [stripAfterCharAux] at hx
  | cons c rest ih =>
      intro x hx
      simp only [stripAfterCharAux] at hx
      by_cases h1 : (b && c == ' ') = true
      · rw [if_pos h1] at hx
        exact List.mem_cons_of_mem c (ih true x hx)
      · rw [if_neg h1] at hx
        by_cases h2 : (c == a) = true
        · rw [if_pos h2] at hx
          rcases List.mem_cons.mp hx with h | h
          · exact List.mem_cons.mpr (Or.inl h)
          · exact List.mem_cons_of_mem c (ih true x h)
        · rw [if_neg h2] at hx
          rcases List.mem_cons.mp hx with h | h
          · exact List.mem_cons.mpr (Or.inl h)
          · exact List.mem_cons_of_mem c (ih false x h)

/-- Helper: `strip()` only removes characters. -/
theorem pyStrip_subset (s : List Char) (x : Char) (hx : x ∈ pyStrip s) :
    x ∈ s := by
  unfold pyStrip at hx
  rw [List.mem_reverse] at hx
  have h1 := (List.dropWhile_sublist (l :=
    (s.dropWhile isPyWhitespace).reverse) isPyWhitespace).subset hx
  rw [List.mem_reverse] at h1
  exact (List.dropWhile_sublist (l := s) isPyWhitespace).subset h1

/-- Helper: the whitespace cleanup only removes characters. -/
theorem cleanupFormatStr_subset (s : List Char) (x : Char)
    (hx : x ∈ cleanupFormatStr s) : x ∈ s := by
  unfold cleanupFormatStr at hx
  simp only [List.foldl_cons, List.foldl_nil] at hx
  exact pyStrip_subset s x
    (stripAfterCharAux_subset ',' false _ x
      (stripAfterCharAux_subset '.' false _ x
        (stripAfterCharAux_subset '[' false _ x
          (stripAfterCharAux_subset ']' false _ x
            (stripAfterCharAux_subset '/' false _ x
              (stripAfterCharAux_subset '+' false _ x hx))))))

/-- Helper: appending a printed-key rule never creates a line item. -/
theorem appendRule_lineItems (st : PState) (r : Rule)
    (h : st.lineItems = []) : (appendRule st r).lineItems = [] := by
  unfold appendRule
  cases st.target <;> simp [h, modifyLineItem]

/-- Helper: stripping an optional comma only removes characters. -/
theorem stripOptionalComma_subset (l : List Char) (x : Char)
    (hx : x ∈ stripOptionalComma l) : x ∈ l := by
  cases l with
  | nil => simp [stripOptionalComma] at hx
  | cons c rest =>
      simp only [stripOptionalComma] at hx
      by_cases hc : (c == ',') = true
      · rw [if_pos hc] at hx; exact List.mem_cons_of_mem c hx
      · rw [if_neg hc] at hx; exact hx

/-- Helper invariant: a parse state whose unconsumed format string
contains no `+` and whose `lineItems` list is empty can never reach a
successful parse: only the `+` branch creates a line item, every
branch shrinks the unconsumed text to a subset of its characters, and
the final validation rejects an empty `lineItems` list. -/
theorem parseLoop_noPlus : ∀ (fuel : Nat) (st : PState),
    '+' ∉ st.formatStr → st.lineItems = [] →
    ∀ p, parseLoop fuel st ≠ .ok p := by
  intro fuel
  induction fuel with
  | zero =>
      intro st hplus hli p h
      rw [parseLoop] at h
      cases hfs : st.formatStr with
      | nil => rw [hfs] at h; simp [parseFinalize, hli] at h
      | cons c rest => rw [hfs] at h; simp at h
  | succ n ih =>
      intro st hplus hli p h
      rw [parseLoop] at h
      cases hfs : st.formatStr with
      | nil => rw [hfs] at h; simp [parseFinalize, hli] at h
      | cons c rest =>
        rw [hfs] at h
        rw [hfs] at hplus
        have hcplus : ¬ c = '+' := fun hc => hplus (by simp [hc])
        have hrest : '+' ∉ rest := fun hr => hplus (List.mem_cons_of_mem c hr)
        by_cases hdot : (c == '.') = true
        · simp only [hdot, if_true] at h
          cases hk : getNextQuotedKey rest with
          | error e => rw [hk] at h; simp at h
          | ok kv =>
            obtain ⟨k, fs1⟩ := kv
            rw [hk] at h
            have hfs1 : '+' ∉ fs1 := fun hf =>
              hrest ((getNextQuotedKey_sublist rest k fs1 hk).subset hf)
            cases fs1 with
            | nil => simp at h
            | cons b fs2 =>
              by_cases hb : (b == '[') = true
              · simp only [hb, if_true] at h
                refine ih _ ?_ ?_ p h
                · exact fun hf => hfs1 (List.mem_cons_of_mem b hf)
                · exact hli
              · simp only [hb, Bool.false_eq_true, if_false] at h
                simp at h
        · simp only [hdot, Bool.false_eq_true, if_false] at h
          by_cases hsl : (c == '/') = true
          · simp only [hsl, if_true] at h
            cases hk : getNextQuotedKey rest with
            | error e => rw [hk] at h; simp at h
            | ok kv =>
              obtain ⟨k, fs1⟩ := kv
              rw [hk] at h
              have hfs1 : '+' ∉ fs1 := fun hf =>
                hrest ((getNextQuotedKey_sublist rest k fs1 hk).subset hf)
              cases fs1 with
              | nil => simp at h
              | cons b fs2 =>
                by_cases hb : (b == '[') = true
                · simp only [hb, if_true] at h
                  have hfs2 : '+' ∉ fs2 := fun hf =>
                    hfs1 (List.mem_cons_of_mem b hf)
                  cases hk2 : getNextQuotedKey fs2 with
                  | error e =>
                      rw [hk2] at h
                      cases e <;> simp at h
                  | ok kv2 =>
                    obtain ⟨mk, fs3⟩ := kv2
                    rw [hk2] at h
                    have hfs3 : '+' ∉ fs3 := fun hf =>
                      hfs2 ((getNextQuotedKey_sublist fs2 mk fs3 hk2).subset hf)
                    cases fs3 with
                    | nil => simp at h
                    | cons e1 fs4 =>
                      by_cases he : (e1 == '=') = true
                      · simp only [he, if_true] at h
                        have hfs4 : '+' ∉ fs4 := fun hf =>
                          hfs3 (List.mem_cons_of_mem e1 hf)
                        cases hk3 : getNextQuotedKey fs4 with
                        | error e =>
                            rw [hk3] at h
                            cases e <;> simp at h
                        | ok kv3 =>
                          obtain ⟨mv, fs5⟩ := kv3
                          rw [hk3] at h
                          have hfs5 : '+' ∉ fs5 := fun hf => hfs4
                            ((getNextQuotedKey_sublist fs4 mv fs5 hk3).subset hf)
                          refine ih _ ?_ ?_ p h
                          · exact hfs5
                          · exact hli
                      · simp only [he, Bool.false_eq_true, if_false] at h
                        simp at h
                · simp only [hb, Bool.false_eq_true, if_false] at h
                  simp at h
          · simp only [hsl, Bool.false_eq_true, if_false] at h
            have hplB : (c == '+') = false := by
              simp only [beq_eq_false_iff_ne]; exact hcplus
            simp only [hplB, Bool.false_eq_true, if_false] at h
            by_cases hbr : (c == ']') = true
            · simp only [hbr, if_true] at h
              have hsoc : '+' ∉ stripOptionalComma rest := fun hf =>
                hrest (stripOptionalComma_subset rest '+' hf)
              by_cases ho : st.openLineItems.isEmpty
              · have ho2 : (!st.openLineItems.isEmpty) = false := by
                  simp [ho]
                simp only [ho2, Bool.false_eq_true, if_false] at h
                by_cases hcl : st.currentLevels.isEmpty
                · have hcl2 : (!st.currentLevels.isEmpty) = false := by
                    simp [hcl]
                  simp only [hcl2, Bool.false_eq_true, if_false] at h
                  simp at h
                · have hcl2 : (!st.currentLevels.isEmpty) = true := by
                    simp_all
                  simp only [hcl2, if_true] at h
                  refine ih _ ?_ ?_ p h
                  · exact hsoc
                  · exact hli
              · have ho2 : (!st.openLineItems.isEmpty) = true := by
                  simp_all
                simp only [ho2, if_true] at h
                by_cases hcl : st.currentLevels.isEmpty
                · simp only [hcl, if_true] at h
                  refine ih _ ?_ ?_ p h
                  · exact hsoc
                  · exact hli
                · have hcl2 : st.currentLevels.isEmpty = false := by
                    simp_all
                  simp only [hcl2, Bool.false_eq_true, if_false] at h
                  refine ih _ ?_ ?_ p h
                  · exact hsoc
                  · exact hli
            · simp only [hbr, Bool.false_eq_true, if_false] at h
              by_cases hq : (c == '"') = true
              · simp only [hq, if_true] at h
                cases hk : getNextQuotedKey (c :: rest) with
                | error e => rw [hk] at h; simp at h
                | ok kv =>
                  obtain ⟨k, fs1⟩ := kv
                  rw [hk] at h
                  have hfs1 : '+' ∉ fs1 := fun hf => hplus
                    ((getNextQuotedKey_sublist (c :: rest) k fs1 hk).subset hf)
                  refine ih _ ?_ ?_ p h
                  · exact fun hf =>
                      hfs1 (stripOptionalComma_subset fs1 '+' hf)
                  · exact appendRule_lineItems st _ hli
              · simp only [hq, Bool.false_eq_true, if_false] at h
                by_cases hw : isFormatWhitespace c = true
                · simp only [hw, if_true] at h
                  refine ih _ ?_ ?_ p h
                  · exact fun hf => hplus
                      ((List.dropWhile_sublist (l := c :: rest)
                        isFormatWhitespace).subset hf)
                  · exact hli
                · have hw2 : isFormatWhitespace c = false := by
                    simp_all
                  simp only [hw2, Bool.false_eq_true, if_false] at h
                  exact ih st (by rw [hfs]; exact hplus) hli p h

/-- Claim C2 (amended): a format string containing no `+` character is
never compiled successfully: whatever the fuel, `parsePattern` returns
an error (in particular, a fully scanned well-formed string fails the
final validation with the `No line items defined` ParseError). -/
theorem parsePattern_noPlus (nullValue : String) (fuel : Nat) (s : String)
    (hplus : '+' ∉ s.data) : ∀ p, parsePattern nullValue fuel s ≠ .ok p := by
  intro p
  exact parseLoop_noPlus fuel _
    (fun hf => hplus (cleanupFormatStr_subset s.data '+' hf)) rfl p

/-- Witness for `parsePattern_noPlus` at the concrete well-formed
plus-free format string described in the counterexample. -/
theorem parsePattern_noPlus_witness :
    parsePattern "" 3 "\"a\"" ≠ .ok ⟨[], [], []⟩ :=
  parsePattern_noPlus "" 3 "\"a\"" (by decide) ⟨[], [], []⟩

/-- Claim C2 (refuting the original statement): the well-formed format
string `"a"` contains no `+` line-item operator, yet compilation does
not succeed — the parser's final validation raises the ParseError
`No line items defined. Nothing over which to iterate.` -/
theorem parsePattern_noPlus_counterexample :
    parsePattern "" 16 "\"a\"" = .error .noLineItems := by
  rfl

/-- Helper: an in-range row subscript returns the join value. -/
theorem rowGet_in_range (r : List String) (j : Nat) (h : j < r.length) :
    rowGet r j = .ok (joinValue j r) := by
  unfold rowGet joinValue
  cases hg : r.get? j with
  | none => rw [List.get?_eq_none] at hg; omega
  | some v => simp [List.getD_eq_getElem?_getD, ← List.get?_eq_getElem?, hg]

/-- Helper: association-list lookup succeeds exactly on stored keys. -/
theorem lookup_isSome_iff (m : List (String × List String)) (v : String) :
    (m.lookup v).isSome ↔ v ∈ m.map Prod.fst := by
  induction m with
  | nil => simp
  | cons kv rest ih =>
      obtain ⟨k, r⟩ := kv
      by_cases hv : v = k
      · subst hv; simp [List.lookup]
      · simp [List.lookup, beq_eq_false_iff_ne.mpr hv, hv, ih]

/-- Helper: looking up the keyed image of a data set is searching the
data set for the first row with that join value. -/
theorem lookup_map_find (d1 : List (List String)) (j1 : Nat) (v : String) :
    (d1.map (fun r => (joinValue j1 r, r))).lookup v =
      d1.find? (fun r1 => joinValue j1 r1 == v) := by
  induction d1 with
  | nil => simp
  | cons r rest ih =>
      by_cases hv : v = joinValue j1 r
      · subst hv; simp [List.lookup, List.find?]
      · simp [List.lookup, List.find?, beq_eq_false_iff_ne.mpr hv,
          beq_eq_false_iff_ne.mpr (Ne.symm hv), ih]

/-- Helper: with in-range indices and no duplicate join value, the
equi-join's first loop returns the keyed rows appended to the
accumulator. -/
theorem joinBuildMap_ok (j1 : Nat) :
    ∀ (d1 : List (List String)) (acc : List (String × List String)),
      (∀ r ∈ d1, j1 < r.length) →
      (acc.map Prod.fst ++ d1.map (joinValue j1)).Nodup →
      joinBuildMap d1 j1 acc =
        .ok (acc ++ d1.map (fun r => (joinValue j1 r, r))) := by
  intro d1
  induction d1 with
  | nil => intro acc hr hnd; simp [joinBuildMap]
  | cons r rest ih =>
      intro acc hr hnd
      have hjr : j1 < r.length := hr r (by simp)
      rw [joinBuildMap, rowGet_in_range r j1 hjr]
      have hnotin : joinValue j1 r ∉ acc.map Prod.fst := by
        intro hmem
        rw [List.nodup_append] at hnd
        exact hnd.2.2 hmem (by simp)
      have hlk : (acc.lookup (joinValue j1 r)).isSome = false := by
        rw [Bool.eq_false_iff]
        intro hs
        exact hnotin ((lookup_isSome_iff acc (joinValue j1 r)).mp hs)
      simp only [Except.instMonad, Except.bind, hlk, Bool.false_eq_true, if_false]
      rw [ih (acc ++ [(joinValue j1 r, r)])
        (fun r2 h2 => hr r2 (List.mem_cons_of_mem r h2))
        (by simpa using hnd)]
      simp

/-- Helper: a duplicate join value within data set 1 (or against the
accumulator) makes the equi-join's first loop raise `KeyError`. -/
theorem joinBuildMap_error (j1 : Nat) :
    ∀ (d1 : List (List String)) (acc : List (String × List String)),
      (∀ r ∈ d1, j1 < r.length) →
      (acc.map Prod.fst).Nodup →
      ¬ (acc.map Prod.fst ++ d1.map (joinValue j1)).Nodup →
      joinBuildMap d1 j1 acc = .error .keyError := by
  intro d1
  induction d1 with
  | nil =>
      intro acc hr hacc hnd
      exact absurd (by simpa using hacc) hnd
  | cons r rest ih =>
      intro acc hr hacc hnd
      have hjr : j1 < r.length := hr r (by simp)
      rw [joinBuildMap, rowGet_in_range r j1 hjr]
      by_cases hin : joinValue j1 r ∈ acc.map Prod.fst
      · have hlk : (acc.lookup (joinValue j1 r)).isSome = true :=
          (lookup_isSome_iff acc (joinValue j1 r)).mpr hin
        simp only [Except.instMonad, Except.bind, hlk, if_true]
      · have hlk : (acc.lookup (joinValue j1 r)).isSome = false := by
          rw [Bool.eq_false_iff]
          intro hs
          exact hin ((lookup_isSome_iff acc (joinValue j1 r)).mp hs)
        simp only [Except.instMonad, Except.bind, hlk, Bool.false_eq_true,
          if_false]
        refine ih (acc ++ [(joinValue j1 r, r)])
          (fun r2 h2 => hr r2 (List.mem_cons_of_mem r h2)) ?_ ?_
        · simp only [List.map_append, List.nodup_append]
          refine ⟨hacc, by simp, ?_⟩
          intro a ha hb
          simp at hb
          subst hb
          exact hin ha
        · intro hcon
          exact hnd (by simpa using hcon)

/-- Helper: with no duplicate join value in data set 2, the equi-join's
second loop returns all keys, the merged rows of matching right rows in
order, and the unmatched right rows. -/
theorem joinScanData2_ok (m : List (String × List String)) (j2 : Nat) :
    ∀ (rows : List (List String)) (keys : List String)
      (comb only2 : List (List String)),
      (∀ r ∈ rows, j2 < r.length) →
      (keys ++ rows.map (joinValue j2)).Nodup →
      joinScanData2 m j2 rows keys comb only2 =
        .ok (keys ++ rows.map (joinValue j2),
          comb ++ rows.filterMap (fun r2 =>
            (m.lookup (joinValue j2 r2)).map
              (fun r1 => r1 ++ dropColumn j2 r2)),
          only2 ++ rows.filter
            (fun r2 => (m.lookup (joinValue j2 r2)).isNone)) := by
  intro rows
  induction rows with
  | nil => intro keys comb only2 hr hnd; simp [joinScanData2]
  | cons r rest ih =>
      intro keys comb only2 hr hnd
      have hjr : j2 < r.length := hr r (by simp)
      rw [joinScanData2, rowGet_in_range r j2 hjr]
      have hnotin : joinValue j2 r ∉ keys := by
        intro hmem
        rw [List.nodup_append] at hnd
        exact hnd.2.2 hmem (by simp)
      have hcont : keys.contains (joinValue j2 r) = false := by
        simpa using hnotin
      simp only [Except.instMonad, Except.bind, hcont, Bool.false_eq_true,
        if_false]
      cases hlk : m.lookup (joinValue j2 r) with
      | some row1 =>
          have hrec := ih (keys ++ [joinValue j2 r]) (comb ++ [row1 ++
              (r.take j2 ++ r.drop (j2 + 1))]) only2
            (fun r2 h2 => hr r2 (List.mem_cons_of_mem r h2))
            (by simpa using hnd)
          simp [hrec, hlk, dropColumn]
      | none =>
          have hrec := ih (keys ++ [joinValue j2 r]) comb (only2 ++ [r])
            (fun r2 h2 => hr r2 (List.mem_cons_of_mem r h2))
            (by simpa using hnd)
          simp [hrec, hlk, dropColumn]

/-- Helper: a duplicate join value within data set 2 makes the
equi-join's second loop raise `KeyError`. -/
theorem joinScanData2_error (m : List (String × List String)) (j2 : Nat) :
    ∀ (rows : List (List String)) (keys : List String)
      (comb only2 : List (List String)),
      (∀ r ∈ rows, j2 < r.length) →
      keys.Nodup →
      ¬ (keys ++ rows.map (joinValue j2)).Nodup →
      joinScanData2 m j2 rows keys comb only2 = .error .keyError := by
  intro rows
  induction rows with
  | nil =>
      intro keys comb only2 hr hk hnd
      exact absurd (by simpa using hk) hnd
  | cons r rest ih =>
      intro keys comb only2 hr hk hnd
      have hjr : j2 < r.length := hr r (by simp)
      rw [joinScanData2, rowGet_in_range r j2 hjr]
      by_cases hin : joinValue j2 r ∈ keys
      · have hcont : keys.contains (joinValue j2 r) = true := by
          simpa using hin
        simp only [Except.instMonad, Except.bind, hcont, if_true]
      · have hcont : keys.contains (joinValue j2 r) = false := by
          simpa using hin
        simp only [Except.instMonad, Except.bind, hcont, Bool.false_eq_true,
          if_false]
        have hk2 : (keys ++ [joinValue j2 r]).Nodup := by
          simp only [List.nodup_append]
          refine ⟨hk, by simp, ?_⟩
          intro a ha hb
          simp at hb
          subst hb
          exact hin ha
        have hnd2 : ¬ ((keys ++ [joinValue j2 r]) ++
            rest.map (joinValue j2)).Nodup := by
          intro hcon
          exact hnd (by simpa using hcon)
        cases hlk : m.lookup (joinValue j2 r) with
        | some row1 =>
            exact ih (keys ++ [joinValue j2 r]) (comb ++ [row1 ++
                (r.take j2 ++ r.drop (j2 + 1))]) only2
              (fun r2 h2 => hr r2 (List.mem_cons_of_mem r h2)) hk2 hnd2
        | none =>
            exact ih (keys ++ [joinValue j2 r]) comb (only2 ++ [r])
              (fun r2 h2 => hr r2 (List.mem_cons_of_mem r h2)) hk2 hnd2

/-- Claim C8: for non-empty row lists with in-range join columns,
`joinCsv` raises an error if and only if some join-field value occurs
twice within `csvData1` or twice within `csvData2`; with no duplicates
it returns the combined rows — each the matching left row followed by
the right row with its join column removed, in right-row order —
together with the two "only" lists; and on the concrete example
`[["1","x"]] ⋈₀₀ [["1","y"]]` it returns exactly
`([["1","x","y"]], [], [])`. -/
theorem joinCsv_spec (d1 d2 : List (List String)) (j1 j2 : Nat)
    (h1 : d1 ≠ []) (h2 : d2 ≠ [])
    (hr1 : ∀ r ∈ d1, j1 < r.length) (hr2 : ∀ r ∈ d2, j2 < r.length) :
    ((∃ e, JsonToCsv.joinCsv d1 j1 d2 j2 = .error e) ↔
      (¬ (d1.map (joinValue j1)).Nodup ∨ ¬ (d2.map (joinValue j2)).Nodup)) ∧
    ((d1.map (joinValue j1)).Nodup → (d2.map (joinValue j2)).Nodup →
      ∃ o1 o2, JsonToCsv.joinCsv d1 j1 d2 j2 =
        .ok (combinedRowsSpec d1 j1 d2 j2, o1, o2)) ∧
    JsonToCsv.joinCsv [["1", "x"]] 0 [["1", "y"]] 0 =
      .ok ([["1", "x", "y"]], [], []) := by
  have main : ((∃ e, JsonToCsv.joinCsv d1 j1 d2 j2 = .error e) ↔
      (¬ (d1.map (joinValue j1)).Nodup ∨
        ¬ (d2.map (joinValue j2)).Nodup)) ∧
      ((d1.map (joinValue j1)).Nodup → (d2.map (joinValue j2)).Nodup →
        ∃ o1 o2, JsonToCsv.joinCsv d1 j1 d2 j2 =
          .ok (combinedRowsSpec d1 j1 d2 j2, o1, o2)) := by
    match d1, d2 with
    | [], _ => exact absurd rfl h1
    | _ :: _, [] => exact absurd rfl h2
    | a :: d1', b :: d2' =>
      have hsucc : ((a :: d1').map (joinValue j1)).Nodup →
          ((b :: d2').map (joinValue j2)).Nodup →
          JsonToCsv.joinCsv (a :: d1') j1 (b :: d2') j2 =
            .ok (combinedRowsSpec (a :: d1') j1 (b :: d2') j2,
              joinOnlyData1 ((a :: d1').map (fun r => (joinValue j1 r, r)))
                ((b :: d2').map (joinValue j2)),
              (b :: d2').filter (fun r2 =>
                (((a :: d1').map (fun r => (joinValue j1 r, r))).lookup
                  (joinValue j2 r2)).isNone)) := by
        intro hnd1 hnd2
        have hbuild := joinBuildMap_ok j1 (a :: d1') [] hr1
          (by simpa using hnd1)
        have hscan := joinScanData2_ok
          ((a :: d1').map (fun r => (joinValue j1 r, r))) j2 (b :: d2')
          [] [] [] hr2 (by simpa using hnd2)
        rw [List.nil_append] at hbuild
        simp only [JsonToCsv.joinCsv, Except.instMonad, Except.bind, hbuild,
          hscan]
        simp only [List.nil_append]
        have hcomb : combinedRowsSpec (a :: d1') j1 (b :: d2') j2 =
            (b :: d2').filterMap (fun r2 =>
              (((a :: d1').map (fun r => (joinValue j1 r, r))).lookup
                (joinValue j2 r2)).map (fun r1 => r1 ++ dropColumn j2 r2)) := by
          unfold combinedRowsSpec
          congr 1
          funext r2
          rw [lookup_map_find]
        rw [hcomb]
      refine ⟨⟨?_, ?_⟩, fun hnd1 hnd2 => ⟨_, _, hsucc hnd1 hnd2⟩⟩
      · intro he
        obtain ⟨e, he⟩ := he
        by_contra hno
        push_neg at hno
        rw [hsucc hno.1 hno.2] at he
        exact absurd he (by simp)
      · intro hdup
        by_cases hnd1 : ((a :: d1').map (joinValue j1)).Nodup
        · have hnd2 : ¬ ((b :: d2').map (joinValue j2)).Nodup := by
            rcases hdup with h | h
            · exact absurd hnd1 h
            · exact h
          have hbuild := joinBuildMap_ok j1 (a :: d1') [] hr1
            (by simpa using hnd1)
          rw [List.nil_append] at hbuild
          have hscan := joinScanData2_error
            ((a :: d1').map (fun r => (joinValue j1 r, r))) j2 (b :: d2')
            [] [] [] hr2 (by simp) (by simpa using hnd2)
          refine ⟨.keyError, ?_⟩
          simp only [JsonToCsv.joinCsv, Except.instMonad, Except.bind, hbuild,
            hscan]
        · have hbuild := joinBuildMap_error j1 (a :: d1') [] hr1 (by simp)
            (by simpa using hnd1)
          refine ⟨.keyError, ?_⟩
          simp only [JsonToCsv.joinCsv, Except.instMonad, Except.bind, hbuild]
  exact ⟨main.1, main.2, by rfl⟩



/-- Witness for `joinCsv_spec` at the concrete example of the claim. -/
theorem joinCsv_spec_witness :
    ∃ o1 o2, JsonToCsv.joinCsv [["1", "x"]] 0 [["1", "y"]] 0 =
      .ok (combinedRowsSpec [["1", "x"]] 0 [["1", "y"]] 0, o1, o2) :=
  (joinCsv_spec [["1", "x"]] [["1", "y"]] 0 0 (by decide) (by decide)
    (by decide) (by decide)).2.1 (by decide) (by decide)

/-- Helper: `addGroup` keeps the key order, appending a new key at the
end. -/
theorem addGroup_keys (m : List (String × List (List String))) (k : String)
    (row : List String) :
    (addGroup m k row).map Prod.fst =
      if k ∈ m.map Prod.fst then m.map Prod.fst
      else m.map Prod.fst ++ [k] := by
  induction m with
  | nil => simp [addGroup]
  | cons kv rest ih =>
      obtain ⟨k', g⟩ := kv
      by_cases hk : k' = k
      · subst hk
        simp [addGroup]
      · simp only [addGroup, beq_eq_false_iff_ne.mpr hk, Bool.false_eq_true,
          if_false, List.map_cons, ih]
        by_cases hm : k ∈ rest.map Prod.fst <;>
          simp [hm, Ne.symm hk]

/-- Helper: adding a row under a fresh key appends a new group. -/
theorem addGroup_not_mem (m : List (String × List (List String)))
    (v : String) (row : List String) (hv : v ∉ m.map Prod.fst) :
    addGroup m v row = m ++ [(v, [row])] := by
  induction m with
  | nil => simp [addGroup]
  | cons kv rest ih =>
      obtain ⟨k', g⟩ := kv
      have hk : ¬ k' = v := by
        intro h
        exact hv (by simp [h])
      simp only [addGroup, beq_eq_false_iff_ne.mpr hk, Bool.false_eq_true,
        if_false, List.cons_append, List.cons.injEq, true_and]
      exact ih (fun h => hv (List.mem_cons_of_mem _ h))

/-- Helper: adding a row under an existing key extends that group in
place. -/
theorem addGroup_mem_ext (v : String) (row : List String)
    (g : String → List (List String)) :
    ∀ (m : List (String × List (List String))),
      (m.map Prod.fst).Nodup → v ∈ m.map Prod.fst →
      (addGroup m v row).map (fun kv => (kv.1, kv.2 ++ g kv.1)) =
        m.map (fun kv => (kv.1, kv.2 ++
          (if kv.1 = v then row :: g kv.1 else g kv.1))) := by
  intro m
  induction m with
  | nil => simp
  | cons kv rest ih =>
      obtain ⟨k', gr⟩ := kv
      intro hnd hv
      by_cases hk : k' = v
      · simp only [addGroup, beq_iff_eq.mpr hk, if_true, List.map_cons,
          if_pos hk]
        refine congrArg₂ _ (by simp) ?_
        have hvn : v ∉ rest.map Prod.fst := by
          simp only [List.map_cons, List.nodup_cons] at hnd
          rw [← hk]
          exact hnd.1
        apply List.map_congr_left
        intro kv2 h2
        have hne : ¬ kv2.1 = v := by
          intro h
          exact hvn (h ▸ List.mem_map_of_mem Prod.fst h2)
        simp [hne]
      · have hv2 : v ∈ rest.map Prod.fst := by
          rcases List.mem_cons.mp (by simpa using hv :
            v ∈ k' :: rest.map Prod.fst) with h | h
          · exact absurd h.symm hk
          · exact h
        have hnd2 : (rest.map Prod.fst).Nodup := by
          simp only [List.map_cons, List.nodup_cons] at hnd
          exact hnd.2
        simp only [addGroup, beq_eq_false_iff_ne.mpr hk, Bool.false_eq_true,
          if_false, List.map_cons, ih hnd2 hv2]
        simp [hk]

/-- Helper: keys produced by the first-occurrence scan are fresh. -/
theorem firstOccsAux_mem :
    ∀ (l seen : List String) (k : String),
      k ∈ firstOccsAux seen l → k ∉ seen ∧ k ∈ l := by
  intro l
  induction l with
  | nil => intro seen k hk; simp [firstOccsAux] at hk
  | cons x xs ih =>
      intro seen k hk
      rw [firstOccsAux] at hk
      by_cases hx : seen.contains x
      · rw [if_pos hx] at hk
        obtain ⟨h1, h2⟩ := ih seen k hk
        exact ⟨h1, List.mem_cons_of_mem x h2⟩
      · rw [if_neg hx] at hk
        rcases List.mem_cons.mp hk with h | h
        · subst h
          refine ⟨?_, by simp⟩
          intro hc
          exact hx (by simpa using hc)
        · obtain ⟨h1, h2⟩ := ih (seen ++ [x]) k h
          exact ⟨fun hc => h1 (List.mem_append_left _ hc),
            List.mem_cons_of_mem x h2⟩

/-- Helper: membership in the first-occurrence list. -/
theorem firstOccsAux_mem_iff :
    ∀ (l seen : List String) (k : String),
      k ∈ firstOccsAux seen l ↔ (k ∉ seen ∧ k ∈ l) := by
  intro l
  induction l with
  | nil => intro seen k; simp [firstOccsAux]
  | cons x xs ih =>
      intro seen k
      rw [firstOccsAux]
      by_cases hx : seen.contains x
      · rw [if_pos hx]
        rw [ih]
        constructor
        · rintro ⟨h1, h2⟩
          exact ⟨h1, List.mem_cons_of_mem x h2⟩
        · rintro ⟨h1, h2⟩
          rcases List.mem_cons.mp h2 with h | h
          · subst h
            exact absurd (by simpa using hx) h1
          · exact ⟨h1, h⟩
      · rw [if_neg hx]
        simp only [List.mem_cons, ih]
        constructor
        · rintro (h | ⟨h1, h2⟩)
          · subst h
            exact ⟨fun hc => hx (by simpa using hc), Or.inl rfl⟩
          · exact ⟨fun hc => h1 (List.mem_append_left _ hc), Or.inr h2⟩
        · rintro ⟨h1, h | h⟩
          · exact Or.inl h
          · by_cases hk : k = x
            · exact Or.inl hk
            · refine Or.inr ⟨?_, h⟩
              intro hc
              rcases List.mem_append.mp hc with hc | hc
              · exact h1 hc
              · exact hk (by simpa using hc)

/-- Helper: unfolding one row of a group filter. -/
theorem groupRows_cons (r : List String) (rest : List (List String))
    (j : Nat) (k : String) :
    groupRows (r :: rest) j k =
      if joinValue j r = k then r :: groupRows rest j k
      else groupRows rest j k := by
  by_cases h : joinValue j r = k
  · simp [groupRows, List.filter, h]
  · simp [groupRows, List.filter, h, beq_eq_false_iff_ne.mpr h]

/-- Helper: `addGroup` preserves distinctness of the group keys. -/
theorem addGroup_keys_nodup (m : List (String × List (List String)))
    (k : String) (row : List String) (hnd : (m.map Prod.fst).Nodup) :
    ((addGroup m k row).map Prod.fst).Nodup := by
  rw [addGroup_keys]
  by_cases hm : k ∈ m.map Prod.fst
  · rw [if_pos hm]; exact hnd
  · rw [if_neg hm]
    simp only [List.nodup_append]
    exact ⟨hnd, by simp, by
      intro a ha hb
      simp at hb
      subst hb
      exact hm ha⟩

/-- Helper: one `addGroup` step commutes with describing the final
group map by filters over the remaining rows. -/
theorem groupsAfter_cons (j : Nat) (r : List String)
    (rest : List (List String))
    (acc : List (String × List (List String)))
    (hnd : (acc.map Prod.fst).Nodup) :
    (addGroup acc (joinValue j r) r).map
        (fun kv => (kv.1, kv.2 ++ groupRows rest j kv.1)) ++
      (firstOccsAux ((addGroup acc (joinValue j r) r).map Prod.fst)
          (rest.map (joinValue j))).map
        (fun k => (k, groupRows rest j k)) =
    acc.map (fun kv => (kv.1, kv.2 ++ groupRows (r :: rest) j kv.1)) ++
      (firstOccsAux (acc.map Prod.fst) ((r :: rest).map (joinValue j))).map
        (fun k => (k, groupRows (r :: rest) j k)) := by
  by_cases hmem : joinValue j r ∈ acc.map Prod.fst
  · have hkeys : (addGroup acc (joinValue j r) r).map Prod.fst =
        acc.map Prod.fst := by
      rw [addGroup_keys, if_pos hmem]
    rw [hkeys]
    have hfo : firstOccsAux (acc.map Prod.fst)
        ((r :: rest).map (joinValue j)) =
        firstOccsAux (acc.map Prod.fst) (rest.map (joinValue j)) := by
      rw [List.map_cons, firstOccsAux, if_pos (by simpa using hmem)]
    rw [hfo]
    refine congrArg₂ _ ?_ ?_
    · rw [addGroup_mem_ext (joinValue j r) r (groupRows rest j) acc
        hnd hmem]
      apply List.map_congr_left
      intro kv hkv
      rw [groupRows_cons]
      by_cases hk : kv.1 = joinValue j r
      · rw [if_pos hk, if_pos hk.symm]
      · rw [if_neg hk, if_neg (fun h => hk h.symm)]
    · apply List.map_congr_left
      intro k hk
      have hne : ¬ joinValue j r = k := by
        intro h
        exact (firstOccsAux_mem _ _ k hk).1 (h ▸ hmem)
      rw [groupRows_cons, if_neg hne]
  · have haddg : addGroup acc (joinValue j r) r =
        acc ++ [(joinValue j r, [r])] :=
      addGroup_not_mem acc (joinValue j r) r hmem
    have hkeys : (acc ++ [(joinValue j r, [r])]).map Prod.fst =
        acc.map Prod.fst ++ [joinValue j r] := by
      simp
    rw [haddg, hkeys]
    have hfo : firstOccsAux (acc.map Prod.fst)
        ((r :: rest).map (joinValue j)) =
        joinValue j r :: firstOccsAux
          (acc.map Prod.fst ++ [joinValue j r])
          (rest.map (joinValue j)) := by
      rw [List.map_cons, firstOccsAux,
        if_neg (by simpa using hmem)]
    rw [hfo]
    simp only [List.map_append, List.map_cons, List.append_assoc,
      List.singleton_append, List.map_nil, List.nil_append,
      List.append_nil]
    refine congrArg₂ _ ?_ ?_
    · apply List.map_congr_left
      intro kv hkv
      have hne : ¬ joinValue j r = kv.1 := by
        intro h
        exact hmem (h ▸ List.mem_map_of_mem Prod.fst hkv)
      rw [groupRows_cons, if_neg hne]
    · refine congrArg₂ _ ?_ ?_
      · rw [groupRows_cons, if_pos rfl]
      · apply List.map_congr_left
        intro k hk
        have hne : ¬ joinValue j r = k := by
          intro h
          have := (firstOccsAux_mem _ _ k hk).1
          exact this (h ▸ List.mem_append_right _ (by simp))
        rw [groupRows_cons, if_neg hne]

/-- Helper: with in-range indices the multi-join's grouping loop never
raises and produces, in first-occurrence key order, the group of rows of
each key. -/
theorem multiBuildMap_ok (j : Nat) :
    ∀ (rows : List (List String)) (acc : List (String × List (List String))),
      (∀ r ∈ rows, j < r.length) → (acc.map Prod.fst).Nodup →
      multiBuildMap rows j acc = .ok (
        acc.map (fun kv => (kv.1, kv.2 ++ groupRows rows j kv.1)) ++
        (firstOccsAux (acc.map Prod.fst) (rows.map (joinValue j))).map
          (fun k => (k, groupRows rows j k))) := by
  intro rows
  induction rows with
  | nil =>
      intro acc hr hnd
      simp [multiBuildMap, firstOccsAux, groupRows]
  | cons r rest ih =>
      intro acc hr hnd
      have hjr : j < r.length := hr r (by simp)
      rw [multiBuildMap, rowGet_in_range r j hjr]
      simp only [Except.instMonad, Except.bind]
      rw [ih (addGroup acc (joinValue j r) r)
        (fun r2 h2 => hr r2 (List.mem_cons_of_mem r h2))
        (addGroup_keys_nodup acc (joinValue j r) r hnd)]
      exact congrArg Except.ok (groupsAfter_cons j r rest acc hnd)

/-- Helper: same characterization for the second grouping loop, which
also collects the right-only rows. -/
theorem multiScanData2_ok (m1 : List (String × List (List String)))
    (j2 : Nat) :
    ∀ (rows : List (List String))
      (acc : List (String × List (List String)))
      (only2 : List (List String)),
      (∀ r ∈ rows, j2 < r.length) → (acc.map Prod.fst).Nodup →
      ∃ o2, multiScanData2 m1 j2 rows acc only2 = .ok (
        acc.map (fun kv => (kv.1, kv.2 ++ groupRows rows j2 kv.1)) ++
        (firstOccsAux (acc.map Prod.fst) (rows.map (joinValue j2))).map
          (fun k => (k, groupRows rows j2 k)), o2) := by
  intro rows
  induction rows with
  | nil =>
      intro acc only2 hr hnd
      refine ⟨only2, ?_⟩
      simp [multiScanData2, firstOccsAux, groupRows]
  | cons r rest ih =>
      intro acc only2 hr hnd
      have hjr : j2 < r.length := hr r (by simp)
      rw [multiScanData2, rowGet_in_range r j2 hjr]
      simp only [Except.instMonad, Except.bind]
      have hnd2 := addGroup_keys_nodup acc (joinValue j2 r) r hnd
      by_cases hlk : (m1.lookup (joinValue j2 r)).isNone
      · obtain ⟨o2, ho2⟩ := ih (addGroup acc (joinValue j2 r) r)
          (only2 ++ [r]) (fun r2 h2 => hr r2 (List.mem_cons_of_mem r h2))
          hnd2
        refine ⟨o2, ?_⟩
        rw [if_pos hlk, ho2]
        exact congrArg Except.ok (by
          rw [groupsAfter_cons j2 r rest acc hnd])
      · obtain ⟨o2, ho2⟩ := ih (addGroup acc (joinValue j2 r) r)
          only2 (fun r2 h2 => hr r2 (List.mem_cons_of_mem r h2)) hnd2
        refine ⟨o2, ?_⟩
        rw [if_neg hlk, ho2]
        exact congrArg Except.ok (by
          rw [groupsAfter_cons j2 r rest acc hnd])

/-- Helper: lookup in a keyed map built from a key list. -/
theorem lookup_keyed_map (f : String → List (List String)) :
    ∀ (l : List String) (v : String),
      ((l.map (fun k => (k, f k))).lookup v) =
        if v ∈ l then some (f v) else none := by
  intro l
  induction l with
  | nil => intro v; simp
  | cons k ks ih =>
      intro v
      by_cases hv : v = k
      · subst hv
        simp [List.lookup]
      · simp only [List.map_cons, List.lookup,
          beq_eq_false_iff_ne.mpr hv, ih]
        by_cases hm : v ∈ ks <;> simp [hm, hv]

/-- Helper: the cross-product loop over a keyed map equals a flat map
over the keys with a right group. -/
theorem multiCombine_keyed (m2 : List (String × List (List String)))
    (j2 : Nat) (gr : String → List (List String)) :
    ∀ (ks : List String),
      multiCombine m2 j2 (ks.map (fun k => (k, gr k))) =
        (ks.filter (fun k => (m2.lookup k).isSome)).flatMap
          (fun k => (gr k).flatMap (fun r1 =>
            ((m2.lookup k).getD []).map
              (fun r2 => r1 ++ (r2.take j2 ++ r2.drop (j2 + 1))))) := by
  intro ks
  induction ks with
  | nil => simp [multiCombine]
  | cons k ks' ih =>
      simp only [List.map_cons, multiCombine]
      cases hlk : m2.lookup k with
      | some rows2 =>
          rw [List.filter_cons_of_pos (by simp [hlk])]
          simp only [List.flatMap_cons, ih, hlk, Option.getD_some]
      | none =>
          rw [List.filter_cons_of_neg (by simp [hlk])]
          exact ih

/-- Claim C9: for non-empty row lists with in-range join columns,
`multiJoinCsv` never raises — duplicates included — and its combined
rows are, for each join key common to both sides, the full cross
product of that key's left rows and right rows in left-major order with
the right join column removed; on the concrete duplicate-key example
`[["k","a"],["k","b"]] ⋈₀₀ [["k","c"],["k","d"]]` it returns exactly
the four rows (a,c), (a,d), (b,c), (b,d) in that order. -/
theorem multiJoinCsv_spec (d1 d2 : List (List String)) (j1 j2 : Nat)
    (h1 : d1 ≠ []) (h2 : d2 ≠ [])
    (hr1 : ∀ r ∈ d1, j1 < r.length) (hr2 : ∀ r ∈ d2, j2 < r.length) :
    (∃ o1 o2, JsonToCsv.multiJoinCsv d1 j1 d2 j2 =
      .ok (multiCombinedSpec d1 j1 d2 j2, o1, o2)) ∧
    JsonToCsv.multiJoinCsv [["k", "a"], ["k", "b"]] 0
        [["k", "c"], ["k", "d"]] 0 =
      .ok ([["k", "a", "c"], ["k", "a", "d"], ["k", "b", "c"],
        ["k", "b", "d"]], [], []) := by
  refine ⟨?_, by rfl⟩
  match d1, d2 with
  | [], _ => exact absurd rfl h1
  | _ :: _, [] => exact absurd rfl h2
  | a :: d1', b :: d2' =>
    have hbuild := multiBuildMap_ok j1 (a :: d1') [] hr1 (by simp)
    simp only [List.map_nil, List.nil_append] at hbuild
    obtain ⟨o2, hscan⟩ := multiScanData2_ok
      ((firstOccsAux [] ((a :: d1').map (joinValue j1))).map
        (fun k => (k, groupRows (a :: d1') j1 k))) j2 (b :: d2') [] []
      hr2 (by simp)
    simp only [List.map_nil, List.nil_append] at hscan
    refine ⟨multiOnlyData1
      ((firstOccsAux [] ((a :: d1').map (joinValue j1))).map
        (fun k => (k, groupRows (a :: d1') j1 k)))
      ((firstOccsAux [] ((b :: d2').map (joinValue j2))).map
        (fun k => (k, groupRows (b :: d2') j2 k))), o2, ?_⟩
    simp only [JsonToCsv.multiJoinCsv, Except.instMonad, Except.bind,
      hbuild, hscan]
    refine congrArg Except.ok ?_
    refine congrArg₂ Prod.mk ?_ rfl
    rw [multiCombine_keyed]
    unfold multiCombinedSpec firstOccs
    have hfilter : (firstOccsAux [] ((a :: d1').map (joinValue j1))).filter
        (fun k => (((firstOccsAux [] ((b :: d2').map (joinValue j2))).map
          (fun k => (k, groupRows (b :: d2') j2 k))).lookup k).isSome) =
        (firstOccsAux [] ((a :: d1').map (joinValue j1))).filter
          (fun k => ((b :: d2').map (joinValue j2)).contains k) := by
      apply List.filter_congr
      intro k hk
      rw [lookup_keyed_map]
      by_cases hm : k ∈ (b :: d2').map (joinValue j2)
      · rw [if_pos ((firstOccsAux_mem_iff _ [] k).mpr
          ⟨by simp, hm⟩)]
        simpa using hm
      · rw [if_neg (fun hc => hm ((firstOccsAux_mem_iff _ [] k).mp hc).2)]
        simpa using hm
    rw [hfilter]
    rw [List.flatMap_def, List.flatMap_def]
    refine congrArg List.flatten ?_
    apply List.map_congr_left
    intro k hk
    have hkmem : k ∈ (b :: d2').map (joinValue j2) := by
      have := List.mem_filter.mp hk
      simpa using this.2
    rw [lookup_keyed_map, if_pos ((firstOccsAux_mem_iff _ [] k).mpr
      ⟨by simp, hkmem⟩)]
    simp [dropColumn]

/-- Witness for `multiJoinCsv_spec` at the concrete example of the
claim. -/
theorem multiJoinCsv_spec_witness :
    ∃ o1 o2, JsonToCsv.multiJoinCsv [["k", "a"], ["k", "b"]] 0
        [["k", "c"], ["k", "d"]] 0 =
      .ok (multiCombinedSpec [["k", "a"], ["k", "b"]] 0
        [["k", "c"], ["k", "d"]] 0, o1, o2) :=
  (multiJoinCsv_spec [["k", "a"], ["k", "b"]] [["k", "c"], ["k", "d"]] 0 0
    (by decide) (by decide) (by decide) (by decide)).1
